import Mathlib

/-!
Verification of the animation and transform core of the DX11B1 engine.

The C++ sources are shallowly embedded:
* `float` time, weight, position and scale values become `ℚ` (the claims under
  study are about exact control flow and algebra, not rounding);
* quaternion slerp and the 4x4 matrix pipeline, which use square roots and
  trigonometric functions, are embedded over `ℝ`;
* `std::vector` becomes `List`, `std::unordered_map` becomes an association
  list with the map's lookup/insert-or-assign semantics;
* fallible lookups return `Option`.

Source files embedded: `Source/Animation/AnimationClip.cpp`,
`Source/Animation/AnimationController.cpp`, `Source/Scene/Transform.cpp`.
-/

set_option maxHeartbeats 1000000

namespace DX11B1

/-! ## Rational helpers: `std::clamp` and C `fmod` -/

/-- `std::clamp(v, lo, hi)`: `v < lo ? lo : hi < v ? hi : v`. -/
def clampQ (v lo hi : ℚ) : ℚ :=
  if v < lo then lo else if hi < v then hi else v

/-- Truncation toward zero, as C float-to-int style truncation used by `fmod`. -/
def truncQ (q : ℚ) : ℤ :=
  if 0 ≤ q then ⌊q⌋ else ⌈q⌉

/-- C `fmod(x, y) = x - y * trunc(x / y)`: the result has the sign of `x` and
magnitude less than `|y|` (exact for rationals; `fmod` is exact for floats). -/
def fmodQ (x y : ℚ) : ℚ :=
  x - y * truncQ (x / y)

/-! ## Keyframes and generic channel sampling

`AnimationClip.cpp` contains three copies of the same sampling routine
(`SamplePosition` / `SampleRotation` / `SampleScale`, together with
`FindPositionKeyframe` / `FindRotationKeyframe` / `FindScaleKeyframe`),
identical except for the keyframe value type, the zero-key default and the
interpolation helper.  They are embedded once, generically in the value type,
and instantiated three times. -/

/-- One keyframe: a time (seconds) and a value (`position` / `rotation` /
`scale` field of the source structs). -/
structure Keyframe (α : Type) where
  time : ℚ
  value : α
deriving Repr

/-- Result of `std::lower_bound(keys.begin(), keys.end(), t, time-<)`: the index
of the first key whose time is not less than `t` (`keys.length` if none),
assuming `keys` is sorted by time.  The binary search is modelled by its
contract. -/
def lowerBound {α : Type} : List (Keyframe α) → ℚ → Nat
  | [], _ => 0
  | k :: ks, t => if k.time < t then lowerBound ks t + 1 else 0

/-- `AnimationChannel::Find*Keyframe(time)`: index of the left end of the
bracketing pair (clamped into `[0, keys.length - 1]`). -/
def findKeyframe {α : Type} (keys : List (Keyframe α)) (t : ℚ) : Nat :=
  if keys.isEmpty then 0
  else
    let i := lowerBound keys t
    if i = keys.length then keys.length - 1
    else if i = 0 then 0
    else i - 1

/-- `AnimationChannel::Sample{Position,Rotation,Scale}(time)`, generic in the
value type: `dflt` is the zero-key default and `interp` the interpolation
helper. -/
def sampleKeys {α : Type} (dflt : α) (interp : α → α → ℚ → α)
    (keys : List (Keyframe α)) (t : ℚ) : α :=
  match keys with
  | [] => dflt
  | [k] => k.value
  | k0 :: k1 :: ks =>
    let keys := k0 :: k1 :: ks
    let keyIndex := findKeyframe keys t
    if keyIndex = keys.length - 1 then (keys.getD keyIndex k0).value
    else
      let key1 := keys.getD keyIndex k0
      let key2 := keys.getD (keyIndex + 1) k0
      let deltaTime := key2.time - key1.time
      if deltaTime ≤ 0 then key1.value
      else
        let u := clampQ ((t - key1.time) / deltaTime) 0 1
        interp key1.value key2.value u

/-! ## Vectors, quaternions, interpolation helpers -/

/-- `DirectX::XMFLOAT3` with rational components (positions, scales, Euler
angle triples). -/
structure Vec3Q where
  x : ℚ
  y : ℚ
  z : ℚ
deriving DecidableEq, Repr

/-- `XMVectorLerp(v0, v1, t) = v0 + t * (v1 - v0)`, componentwise
(`AnimationChannel::InterpolatePosition` / `InterpolateScale`). -/
def lerpV3 (a b : Vec3Q) (t : ℚ) : Vec3Q :=
  ⟨a.x + t * (b.x - a.x), a.y + t * (b.y - a.y), a.z + t * (b.z - a.z)⟩

/-- `DirectX::XMFLOAT4` quaternion; real components because slerp and
normalization use trigonometric functions and square roots. -/
structure Quat where
  x : ℝ
  y : ℝ
  z : ℝ
  w : ℝ

/-- Quaternion 4-component dot product (`XMQuaternionDot`). -/
def Quat.dot (a b : Quat) : ℝ :=
  a.x * b.x + a.y * b.y + a.z * b.z + a.w * b.w

/-- Componentwise scalar multiple of a quaternion. -/
def Quat.smul (c : ℝ) (q : Quat) : Quat :=
  ⟨c * q.x, c * q.y, c * q.z, c * q.w⟩

/-- Componentwise quaternion sum. -/
def Quat.add (a b : Quat) : Quat :=
  ⟨a.x + b.x, a.y + b.y, a.z + b.z, a.w + b.w⟩

/-- `XMQuaternionSlerp(q0, q1, t)` (DirectXMath): shortest-path spherical
interpolation, falling back to linear weights when the quaternions are nearly
parallel (`cosOmega ≥ 1 - 1e-5`). -/
noncomputable def quatSlerp (q0 q1 : Quat) (t : ℝ) : Quat :=
  let cosOmega0 := Quat.dot q0 q1
  let sign : ℝ := if cosOmega0 < 0 then -1 else 1
  let cosOmega := cosOmega0 * sign
  if cosOmega < 1 - 1 / 100000 then
    let omega := Real.arccos cosOmega
    let sinOmega := Real.sin omega
    let s0 := Real.sin ((1 - t) * omega) / sinOmega
    let s1 := Real.sin (t * omega) / sinOmega
    Quat.add (Quat.smul s0 q0) (Quat.smul (sign * s1) q1)
  else
    Quat.add (Quat.smul (1 - t) q0) (Quat.smul (sign * t) q1)

/-- `XMQuaternionNormalize`: divide by the 4-component length (zero length
yields the zero quaternion, as `XMVector4Normalize` does). -/
noncomputable def quatNormalize (q : Quat) : Quat :=
  let len := Real.sqrt (Quat.dot q q)
  if len = 0 then ⟨0, 0, 0, 0⟩ else Quat.smul (1 / len) q

/-- `AnimationChannel::InterpolateRotation`: slerp then renormalize. -/
noncomputable def interpRotation (a b : Quat) (t : ℚ) : Quat :=
  quatNormalize (quatSlerp a b (t : ℝ))

/-! ## Channels and clips -/

/-- `GameEngine::Animation::AnimationChannel` (data part). -/
structure AnimationChannel where
  boneName : String
  boneIndex : ℤ
  positionKeys : List (Keyframe Vec3Q)
  rotationKeys : List (Keyframe Quat)
  scaleKeys : List (Keyframe Vec3Q)

/-- `AnimationChannel::SamplePosition`: default origin, linear interpolation. -/
def AnimationChannel.samplePosition (c : AnimationChannel) (t : ℚ) : Vec3Q :=
  sampleKeys ⟨0, 0, 0⟩ lerpV3 c.positionKeys t

/-- `AnimationChannel::SampleScale`: default unit scale, linear interpolation. -/
def AnimationChannel.sampleScale (c : AnimationChannel) (t : ℚ) : Vec3Q :=
  sampleKeys ⟨1, 1, 1⟩ lerpV3 c.scaleKeys t

/-- `AnimationChannel::SampleRotation`: default identity quaternion,
slerp-with-renormalization interpolation. -/
noncomputable def AnimationChannel.sampleRotation (c : AnimationChannel) (t : ℚ) : Quat :=
  sampleKeys ⟨0, 0, 0, 1⟩ interpRotation c.rotationKeys t

/-- `GameEngine::Animation::AnimationClip` (data part). -/
structure AnimationClip where
  name : String
  duration : ℚ
  ticksPerSecond : ℚ
  channels : List AnimationChannel

/-- `AnimationClip::NormalizeTime`: clamp to `[0, duration]`, or `0` for a
non-positive duration. -/
def AnimationClip.normalizeTime (clip : AnimationClip) (t : ℚ) : ℚ :=
  if clip.duration ≤ 0 then 0 else clampQ t 0 clip.duration

/-- `AnimationClip::LoopTime`: wrap into `[0, duration)` with `fmod`, shifting
negative input forward by one period first; `0` for non-positive duration. -/
def AnimationClip.loopTime (clip : AnimationClip) (t : ℚ) : ℚ :=
  if clip.duration ≤ 0 then 0
  else
    let t2 := if t < 0 then clip.duration + fmodQ t clip.duration else t
    fmodQ t2 clip.duration

/-! ## 4x4 matrices (`DirectX::XMMATRIX`, row-vector convention)

`XMMatrixMultiply(A, B)` is the row-major product `A * B`; a point is a row
vector multiplied on the left.  Row 3 is the translation row. -/

/-- `DirectX::XMMATRIX`. -/
abbrev Mat4 := Matrix (Fin 4) (Fin 4) ℝ

/-- `XMMatrixScaling(sx, sy, sz)`: diagonal `(sx, sy, sz, 1)` — note the `1`
in the last diagonal slot. -/
def xmMatrixScaling (sx sy sz : ℝ) : Mat4 :=
  Matrix.diagonal ![sx, sy, sz, 1]

/-- `XMMatrixTranslation(x, y, z)`: identity with `(x, y, z)` in row 3. -/
def xmMatrixTranslation (x y z : ℝ) : Mat4 :=
  !![1, 0, 0, 0; 0, 1, 0, 0; 0, 0, 1, 0; x, y, z, 1]

/-- `XMMatrixRotationQuaternion(q)` (DirectXMath row-vector convention). -/
def xmMatrixRotationQuaternion (q : Quat) : Mat4 :=
  !![1 - 2 * (q.y * q.y + q.z * q.z), 2 * (q.x * q.y + q.z * q.w),
       2 * (q.x * q.z - q.y * q.w), 0;
     2 * (q.x * q.y - q.z * q.w), 1 - 2 * (q.x * q.x + q.z * q.z),
       2 * (q.y * q.z + q.x * q.w), 0;
     2 * (q.x * q.z + q.y * q.w), 2 * (q.y * q.z - q.x * q.w),
       1 - 2 * (q.x * q.x + q.y * q.y), 0;
     0, 0, 0, 1]

/-- `AnimationChannel::SampleTransform(time)`: sample the three components and
compose `scale * rotation * translation` (row-vector order: scale, then
rotate, then translate). -/
noncomputable def AnimationChannel.sampleTransform (c : AnimationChannel) (t : ℚ) : Mat4 :=
  let position := c.samplePosition t
  let rotation := c.sampleRotation t
  let scale := c.sampleScale t
  xmMatrixScaling (scale.x : ℝ) (scale.y : ℝ) (scale.z : ℝ) *
    xmMatrixRotationQuaternion rotation *
    xmMatrixTranslation (position.x : ℝ) (position.y : ℝ) (position.z : ℝ)

/-- `AnimationClip::SampleAnimation(time, boneTransforms)`: empty output is
left untouched (warning logged); otherwise every slot is reset to the identity
and each channel with a bone index in range overwrites its slot with
`SampleTransform(NormalizeTime(time))`. -/
noncomputable def AnimationClip.sampleAnimation (clip : AnimationClip) (t : ℚ)
    (boneTransforms : List Mat4) : List Mat4 :=
  if boneTransforms.isEmpty then boneTransforms
  else
    let normalizedTime := clip.normalizeTime t
    let init : List Mat4 := boneTransforms.map fun _ => 1
    clip.channels.foldl (fun acc c =>
      if 0 ≤ c.boneIndex ∧ c.boneIndex < (acc.length : ℤ) then
        acc.set c.boneIndex.toNat (c.sampleTransform normalizedTime)
      else acc) init

/-! ## Animation controller (`AnimationController.cpp`)

`std::unordered_map<std::string, V>` is embedded as an association list with
keyed lookup (`find`) and insert-or-assign (`operator[]`) semantics; no
modelled operation iterates over a map, so the unspecified iteration order is
irrelevant.  A `PlayingAnimation::clip` shared pointer is never null on any
path the controller creates (`Play` / `CrossFade` / `AddLayer` /
`UpdateStateMachine` all store a lookup result that was checked), so the clip
is embedded by value and the `!playingAnim.clip` guard of
`UpdateAnimations` is dropped as unreachable. -/

/-- Keyed lookup in an association list (`unordered_map::find`). -/
def mapFind {α : Type} : List (String × α) → String → Option α
  | [], _ => none
  | (k, v) :: rest, key => if k = key then some v else mapFind rest key

/-- Insert-or-assign (`unordered_map::operator[] = v`). -/
def mapInsert {α : Type} : List (String × α) → String → α → List (String × α)
  | [], key, v => [(key, v)]
  | (k, v0) :: rest, key, v =>
    if k = key then (k, v) :: rest else (k, v0) :: mapInsert rest key v

/-- `GameEngine::Animation::PlayingAnimation`. -/
structure PlayingAnimation where
  clip : AnimationClip
  currentTime : ℚ
  speed : ℚ
  weight : ℚ
  loop : Bool
  isBlending : Bool
  blendTime : ℚ
  blendDuration : ℚ

/-- `GameEngine::Animation::AnimationState`. -/
structure AnimationState where
  name : String
  clip : AnimationClip
  loop : Bool
  speed : ℚ
  blendInTime : ℚ
  blendOutTime : ℚ

/-- `GameEngine::Animation::AnimationTransition`. -/
structure AnimationTransition where
  fromState : String
  toState : String
  duration : ℚ
  hasExitTime : Bool
  exitTime : ℚ
  triggerName : String

/-- The mutable state of one `AnimationController`. -/
structure ControllerState where
  animationClips : List (String × AnimationClip)
  states : List (String × AnimationState)
  transitions : List AnimationTransition
  currentState : String
  targetState : String
  playingAnimations : List PlayingAnimation
  isPlaying : Bool
  isPaused : Bool
  useStateMachine : Bool
  floatParams : List (String × ℚ)
  intParams : List (String × ℤ)
  boolParams : List (String × Bool)
  triggers : List (String × Bool)
  boneTransforms : List Mat4

namespace ControllerState

/-- `AnimationController::GetAnimationClip(name)`. -/
def getAnimationClip (s : ControllerState) (name : String) : Option AnimationClip :=
  mapFind s.animationClips name

/-- `AnimationController::Play(animationName, loop, speed)`: unknown clip name
logs an error and leaves the controller untouched; a known clip replaces all
layers by one fresh full-weight layer and switches to simple-playback mode. -/
def play (s : ControllerState) (animationName : String) (loop : Bool) (speed : ℚ) :
    ControllerState :=
  match s.getAnimationClip animationName with
  | none => s
  | some clip =>
    { s with
      playingAnimations := [⟨clip, 0, speed, 1, loop, false, 0, 0⟩],
      isPlaying := true,
      useStateMachine := false }

/-- `AnimationController::CrossFade(animationName, fadeDuration, loop, speed)`:
unknown clip name leaves the controller untouched; otherwise every
not-yet-blending layer starts blending with blend time `0` over
`fadeDuration`, and a fresh zero-weight blending layer is appended. -/
def crossFade (s : ControllerState) (animationName : String) (fadeDuration : ℚ)
    (loop : Bool) (speed : ℚ) : ControllerState :=
  match s.getAnimationClip animationName with
  | none => s
  | some clip =>
    { s with
      playingAnimations :=
        (s.playingAnimations.map fun pa =>
          if pa.isBlending then pa
          else { pa with isBlending := true, blendTime := 0, blendDuration := fadeDuration })
        ++ [⟨clip, 0, speed, 0, loop, true, 0, fadeDuration⟩],
      isPlaying := true,
      useStateMachine := false }

/-- `AnimationController::AddLayer(animationName, weight, loop, speed)`:
unknown clip name leaves the controller untouched; otherwise a layer is
appended.  Neither `m_isPlaying` nor `m_useStateMachine` is written. -/
def addLayer (s : ControllerState) (animationName : String) (weight : ℚ)
    (loop : Bool) (speed : ℚ) : ControllerState :=
  match s.getAnimationClip animationName with
  | none => s
  | some clip =>
    { s with
      playingAnimations :=
        s.playingAnimations ++ [⟨clip, 0, speed, weight, loop, false, 0, 0⟩] }

/-- `AnimationController::AddState(stateName, clipName, loop, speed)`:
unknown clip name leaves the controller untouched; otherwise the state is
inserted (struct defaults `blendInTime = blendOutTime = 0.3`) and becomes
current if no state was current yet. -/
def addState (s : ControllerState) (stateName clipName : String) (loop : Bool)
    (speed : ℚ) : ControllerState :=
  match s.getAnimationClip clipName with
  | none => s
  | some clip =>
    { s with
      states := mapInsert s.states stateName ⟨stateName, clip, loop, speed, 3/10, 3/10⟩,
      currentState := if s.currentState = "" then stateName else s.currentState }

/-- `AnimationController::AddTransition(fromState, toState, duration)` (struct
defaults `hasExitTime = false`, `exitTime = 0.9`, empty trigger). -/
def addTransition (s : ControllerState) (fromState toState : String) (duration : ℚ) :
    ControllerState :=
  { s with transitions := s.transitions ++ [⟨fromState, toState, duration, false, 9/10, ""⟩] }

/-- `AnimationController::FindState(name)`. -/
def findState (s : ControllerState) (name : String) : Option AnimationState :=
  mapFind s.states name

/-- `AnimationController::FindTransitionsFromState(stateName)`. -/
def findTransitionsFromState (s : ControllerState) (stateName : String) :
    List AnimationTransition :=
  s.transitions.filter fun tr => tr.fromState = stateName

/-- `AnimationController::StartTransition(transition)`: silently returns if the
target state is missing; otherwise cross-fades to the target state's clip (by
the clip's own name) and installs the target as current state. -/
def startTransition (s : ControllerState) (tr : AnimationTransition) : ControllerState :=
  match s.findState tr.toState with
  | none => s
  | some targetState =>
    let s1 := s.crossFade targetState.clip.name tr.duration targetState.loop targetState.speed
    { s1 with currentState := tr.toState, targetState := "" }

/-- `AnimationController::TransitionToState(stateName)`: unknown state or
already-current state is a no-op; otherwise the target is recorded,
state-machine mode is switched on, and the first transition edge
`currentState → stateName` (if any) is started. -/
def transitionToState (s : ControllerState) (stateName : String) : ControllerState :=
  match s.findState stateName with
  | none => s
  | some _ =>
    if s.currentState = stateName then s
    else
      let s1 := { s with targetState := stateName, useStateMachine := true }
      match (s1.findTransitionsFromState s1.currentState).find?
          (fun tr => tr.toState = stateName) with
      | some tr => s1.startTransition tr
      | none => s1

/-- The per-layer body of `AnimationController::UpdateAnimations(deltaTime)`. -/
def updateLayer (deltaTime : ℚ) (pa : PlayingAnimation) : PlayingAnimation :=
  let ct0 := pa.currentTime + deltaTime * pa.speed
  let ct := if pa.loop then pa.clip.loopTime ct0 else pa.clip.normalizeTime ct0
  if pa.isBlending then
    let bt := pa.blendTime + deltaTime
    if pa.blendDuration ≤ bt then
      { pa with currentTime := ct, blendTime := bt, isBlending := false,
                weight := if 1/2 < pa.weight then 1 else 0 }
    else
      let t := bt / pa.blendDuration
      { pa with currentTime := ct, blendTime := bt,
                weight := if pa.weight < 1/2 then 1 - t else t }
  else
    { pa with currentTime := ct }

/-- `AnimationController::UpdateAnimations(deltaTime)`: each layer is advanced
independently. -/
def updateAnimations (s : ControllerState) (deltaTime : ℚ) : ControllerState :=
  { s with playingAnimations := s.playingAnimations.map (updateLayer deltaTime) }

/-- `AnimationController::NormalizeWeights()`: if the weights sum to more than
`1`, scale every weight by `1 / total`. -/
def normalizeWeights (s : ControllerState) : ControllerState :=
  let totalWeight := (s.playingAnimations.map fun pa => pa.weight).sum
  if 1 < totalWeight then
    { s with playingAnimations :=
        s.playingAnimations.map fun pa => { pa with weight := pa.weight * (1 / totalWeight) } }
  else s

/-- The per-bone combination step of `AnimationController::BlendAnimations`:
full override at weight `≥ 1`, otherwise
`XMMatrixScaling(1-w,1-w,1-w) * acc + XMMatrixScaling(w,w,w) * sample`. -/
noncomputable def combineBone (acc sample : Mat4) (w : ℚ) : Mat4 :=
  if 1 ≤ w then sample
  else xmMatrixScaling (1 - (w : ℝ)) (1 - (w : ℝ)) (1 - (w : ℝ)) * acc +
       xmMatrixScaling (w : ℝ) (w : ℝ) (w : ℝ) * sample

/-- One layer's pass over the accumulator array in `BlendAnimations`. -/
noncomputable def blendLayer (acc : List Mat4) (pa : PlayingAnimation) : List Mat4 :=
  if pa.weight ≤ 0 then acc
  else
    let animTransforms := pa.clip.sampleAnimation pa.currentTime (acc.map fun _ => (1 : Mat4))
    List.zipWith (fun m a => combineBone m a pa.weight) acc animTransforms

/-- `AnimationController::BlendAnimations()`: no-op when there are no layers or
no bones; otherwise normalizes weights (a persistent mutation of the layers),
resets the bone array to identity and folds every positive-weight layer over
it in list order. -/
noncomputable def blendAnimations (s : ControllerState) : ControllerState :=
  if s.playingAnimations.isEmpty ∨ s.boneTransforms.isEmpty then s
  else
    let s1 := s.normalizeWeights
    let bones0 : List Mat4 := s.boneTransforms.map fun _ => 1
    { s1 with boneTransforms := s1.playingAnimations.foldl blendLayer bones0 }

/-- `AnimationController::CleanupFinishedAnimations()`: drop layers with
non-positive weight that are not blending. -/
def cleanupFinishedAnimations (s : ControllerState) : ControllerState :=
  { s with playingAnimations :=
      s.playingAnimations.filter fun pa => ¬ (pa.weight ≤ 0 ∧ ¬ pa.isBlending) }

/-- `AnimationController::GetCurrentTime()`. -/
def getCurrentTime (s : ControllerState) : ℚ :=
  match s.playingAnimations with
  | [] => 0
  | pa :: _ => pa.currentTime

/-- `AnimationController::GetNormalizedTime()`: guarded division by the first
layer's clip duration. -/
def getNormalizedTime (s : ControllerState) : ℚ :=
  match s.playingAnimations with
  | [] => 0
  | pa :: _ => if 0 < pa.clip.duration then pa.currentTime / pa.clip.duration else 0

/-- `AnimationController::GetCurrentAnimationName()`. -/
def getCurrentAnimationName (s : ControllerState) : String :=
  match s.playingAnimations with
  | [] => ""
  | pa :: _ => pa.clip.name

end ControllerState

/-! ## Transform hierarchy (`Transform.cpp`)

The entity hierarchy is embedded as a forest on `Fin n` with a parent map;
`parent_lt` states that parents have smaller indices, which any forest can be
numbered to satisfy and which makes the parent-chain recursions of the source
structurally terminating.  `Entity::GetChildren` is consistent with the
parent links, so `MarkWorldMatrixDirty`'s recursive child traversal reaches
exactly the nodes whose ancestor-or-self chain passes through the mutated
node; it is embedded that way. -/

/-- `DirectX::XMFLOAT3` with real components (Transform local fields; Euler
angles in degrees). -/
structure Vec3R where
  x : ℝ
  y : ℝ
  z : ℝ

/-- `XMConvertToRadians`. -/
noncomputable def toRadians (deg : ℝ) : ℝ := deg * (Real.pi / 180)

/-- `XMConvertToDegrees`. -/
noncomputable def toDegrees (rad : ℝ) : ℝ := rad * (180 / Real.pi)

/-- `XMMatrixRotationX` (row-vector convention). -/
noncomputable def xmMatrixRotationX (a : ℝ) : Mat4 :=
  !![1, 0, 0, 0;
     0, Real.cos a, Real.sin a, 0;
     0, -Real.sin a, Real.cos a, 0;
     0, 0, 0, 1]

/-- `XMMatrixRotationY` (row-vector convention). -/
noncomputable def xmMatrixRotationY (a : ℝ) : Mat4 :=
  !![Real.cos a, 0, -Real.sin a, 0;
     0, 1, 0, 0;
     Real.sin a, 0, Real.cos a, 0;
     0, 0, 0, 1]

/-- `XMMatrixRotationZ` (row-vector convention). -/
noncomputable def xmMatrixRotationZ (a : ℝ) : Mat4 :=
  !![Real.cos a, Real.sin a, 0, 0;
     -Real.sin a, Real.cos a, 0, 0;
     0, 0, 1, 0;
     0, 0, 0, 1]

/-- `XMMatrixRotationRollPitchYaw(pitch, yaw, roll)`: roll (z) applied first,
then pitch (x), then yaw (y) — with row vectors that is `Rz * Rx * Ry`. -/
noncomputable def xmMatrixRotationRollPitchYaw (pitch yaw roll : ℝ) : Mat4 :=
  xmMatrixRotationZ roll * xmMatrixRotationX pitch * xmMatrixRotationY yaw

/-- `Transform::CreateRotationMatrix()`: degrees to radians, then
roll-pitch-yaw rotation. -/
noncomputable def createRotationMatrix (rot : Vec3R) : Mat4 :=
  xmMatrixRotationRollPitchYaw (toRadians rot.x) (toRadians rot.y) (toRadians rot.z)

/-- C `atan2f(y, x)` (sign conventions of the mathematical function; the
signed-zero distinctions of IEEE collapse in `ℝ`). -/
noncomputable def atan2 (y x : ℝ) : ℝ :=
  if 0 < x then Real.arctan (y / x)
  else if x < 0 then
    (if 0 ≤ y then Real.arctan (y / x) + Real.pi else Real.arctan (y / x) - Real.pi)
  else if 0 < y then Real.pi / 2
  else if y < 0 then -(Real.pi / 2)
  else 0

/-- `Transform::MatrixToEuler(matrix)`: extract Euler angles (degrees) from a
rotation matrix, with the singular branch taken when
`sqrt(m11^2 + m21^2) < 1e-6`.  Row-major `_rc` of `XMFLOAT4X4` is entry
`(r-1, c-1)`. -/
noncomputable def matrixToEuler (m : Mat4) : Vec3R :=
  let sy := Real.sqrt (m 0 0 * m 0 0 + m 1 0 * m 1 0)
  if sy < 1 / 1000000 then
    ⟨toDegrees (atan2 (-(m 1 2)) (m 1 1)), toDegrees (atan2 (-(m 2 0)) sy), toDegrees 0⟩
  else
    ⟨toDegrees (atan2 (m 2 1) (m 2 2)), toDegrees (atan2 (-(m 2 0)) sy),
      toDegrees (atan2 (m 1 0) (m 0 0))⟩

/-- The cached part of a `Transform` component. -/
structure TNode where
  localPosition : Vec3R
  localRotation : Vec3R
  localScale : Vec3R
  localMatrix : Mat4
  worldMatrix : Mat4
  localMatrixDirty : Bool
  worldMatrixDirty : Bool
  isDirty : Bool

/-- `Transform::Transform()`: identity fields, all caches dirty. -/
noncomputable def TNode.init : TNode :=
  ⟨⟨0, 0, 0⟩, ⟨0, 0, 0⟩, ⟨1, 1, 1⟩, 1, 1, true, true, true⟩

/-- A fixed entity hierarchy: parent map on `Fin n`, parents numbered below
children. -/
structure Forest (n : ℕ) where
  parent : Fin n → Option (Fin n)
  parent_lt : ∀ i j, parent i = some j → (j : ℕ) < (i : ℕ)

/-- The transform states of all nodes. -/
abbrev TState (n : ℕ) := Fin n → TNode

/-- The ancestor-or-self chain of a node, nearest first. -/
def Forest.chain {n : ℕ} (F : Forest n) (i : Fin n) : List (Fin n) :=
  i :: (match h : F.parent i with
        | some p => F.chain p
        | none => [])
termination_by (i : ℕ)
decreasing_by exact F.parent_lt i p h

/-- The fresh local matrix `Scale * Rotation * Translation` built by
`Transform::UpdateLocalMatrix`. -/
noncomputable def mkLocalMatrix (pos rot scale : Vec3R) : Mat4 :=
  xmMatrixScaling scale.x scale.y scale.z * createRotationMatrix rot *
    xmMatrixTranslation pos.x pos.y pos.z

/-- `Transform::UpdateLocalMatrix()`: recompute the local matrix if dirty. -/
noncomputable def TNode.updateLocalMatrix (nd : TNode) : TNode :=
  if nd.localMatrixDirty then
    { nd with localMatrix := mkLocalMatrix nd.localPosition nd.localRotation nd.localScale,
              localMatrixDirty := false }
  else nd

/-- `Transform::UpdateWorldMatrix()` with an instrumentation log: the returned
list records, outermost first, the nodes whose dirty branch executed (i.e.
whose world matrix was recomputed by this read). -/
noncomputable def updateWorldAux {n : ℕ} (F : Forest n) (i : Fin n) (s : TState n) :
    TState n × List (Fin n) :=
  if (s i).worldMatrixDirty then
    let s1 := Function.update s i (s i).updateLocalMatrix
    match h : F.parent i with
    | some p =>
      let r2 := updateWorldAux F p s1
      (Function.update r2.1 i
        { r2.1 i with worldMatrix := (r2.1 i).localMatrix * (r2.1 p).worldMatrix,
                      worldMatrixDirty := false },
        i :: r2.2)
    | none =>
      (Function.update s1 i
        { s1 i with worldMatrix := (s1 i).localMatrix, worldMatrixDirty := false },
        i :: [])
  else (s, [])
termination_by (i : ℕ)
decreasing_by exact F.parent_lt i p h

/-- `Transform::GetWorldMatrix()`: update, then read the cache. -/
noncomputable def getWorldMatrix {n : ℕ} (F : Forest n) (i : Fin n) (s : TState n) : Mat4 :=
  (((updateWorldAux F i s).1) i).worldMatrix

/-- `Transform::MarkWorldMatrixDirty()` on node `i`: set `worldMatrixDirty` on
`i` and, through the child lists, on every descendant — exactly the nodes
whose ancestor-or-self chain contains `i`. -/
def markWorldMatrixDirty {n : ℕ} (F : Forest n) (i : Fin n) (s : TState n) : TState n :=
  fun j => if i ∈ F.chain j then { s j with worldMatrixDirty := true } else s j

/-- `Transform::SetLocalPosition`: store the field, mark the local matrix
dirty, propagate world dirtiness, set `m_isDirty`. -/
def setLocalPosition {n : ℕ} (F : Forest n) (i : Fin n) (v : Vec3R) (s : TState n) : TState n :=
  markWorldMatrixDirty F i
    (Function.update s i
      { s i with localPosition := v, localMatrixDirty := true, isDirty := true })

/-- `Transform::SetLocalRotation`. -/
def setLocalRotation {n : ℕ} (F : Forest n) (i : Fin n) (v : Vec3R) (s : TState n) : TState n :=
  markWorldMatrixDirty F i
    (Function.update s i
      { s i with localRotation := v, localMatrixDirty := true, isDirty := true })

/-- `Transform::SetLocalScale`. -/
def setLocalScale {n : ℕ} (F : Forest n) (i : Fin n) (v : Vec3R) (s : TState n) : TState n :=
  markWorldMatrixDirty F i
    (Function.update s i
      { s i with localScale := v, localMatrixDirty := true, isDirty := true })

/-- `Transform::SetWorldRotation(rotation)`: with a parent, the source builds
`worldRot` from `CreateRotationMatrix()` (this node's own current local
rotation — not from the `rotation` argument) and `invParentRot` from the
inverse of `CreateRotationMatrix()` (again this node's own rotation — not the
parent's), stores `MatrixToEuler(invParentRot * worldRot)` and never reads
`rotation`; without a parent it stores `rotation` directly. -/
noncomputable def setWorldRotation {n : ℕ} (F : Forest n) (i : Fin n) (rotation : Vec3R)
    (s : TState n) : TState n :=
  let nd := s i
  let newRot :=
    match F.parent i with
    | some _ =>
      let worldRot := createRotationMatrix nd.localRotation
      let invParentRot := (createRotationMatrix nd.localRotation)⁻¹
      matrixToEuler (invParentRot * worldRot)
    | none => rotation
  markWorldMatrixDirty F i
    (Function.update s i
      { nd with localRotation := newRot, localMatrixDirty := true, isDirty := true })

/-- A local mutation of the hierarchy (the operations claim C4 ranges over). -/
inductive TOp (n : ℕ) where
  | setPos (i : Fin n) (v : Vec3R)
  | setRot (i : Fin n) (v : Vec3R)
  | setScale (i : Fin n) (v : Vec3R)

/-- Apply one local mutation. -/
def applyTOp {n : ℕ} (F : Forest n) (s : TState n) : TOp n → TState n
  | .setPos i v => setLocalPosition F i v s
  | .setRot i v => setLocalRotation F i v s
  | .setScale i v => setLocalScale F i v s

/-- Run a sequence of local mutations. -/
def runTOps {n : ℕ} (F : Forest n) (ops : List (TOp n)) (s : TState n) : TState n :=
  ops.foldl (applyTOp F) s

/-- The local matrix a node's current fields denote. -/
noncomputable def denotLocal (nd : TNode) : Mat4 :=
  mkLocalMatrix nd.localPosition nd.localRotation nd.localScale

/-- The world matrix a node's (and its ancestors') current fields denote:
`local * parent.world`, or `local` for a root. -/
noncomputable def denotWorld {n : ℕ} (F : Forest n) (i : Fin n) (s : TState n) : Mat4 :=
  match h : F.parent i with
  | some p => denotLocal (s i) * denotWorld F p s
  | none => denotLocal (s i)
termination_by (i : ℕ)
decreasing_by exact F.parent_lt i p h

/-- The authoritative (non-cache) data of a transform node. -/
def TNode.fields (nd : TNode) : Vec3R × Vec3R × Vec3R :=
  (nd.localPosition, nd.localRotation, nd.localScale)

/-- The cache-coherence invariant of the transform hierarchy: a clean world
cache has a clean parent and holds the denoted world matrix; a clean local
cache holds the denoted local matrix. -/
def TInv {n : ℕ} (F : Forest n) (s : TState n) : Prop :=
  ∀ i : Fin n,
    ((s i).worldMatrixDirty = false →
      (∀ p, F.parent i = some p → (s p).worldMatrixDirty = false) ∧
      (s i).worldMatrix = denotWorld F i s) ∧
    ((s i).localMatrixDirty = false → (s i).localMatrix = denotLocal (s i))

/-! ## Concrete fixtures for witnesses and counterexamples -/

/-- A minimal clip: one second long, no channels. -/
def walkClip : AnimationClip := ⟨"walk", 1, 25, []⟩

/-- A two-second clip, no channels. -/
def runClip : AnimationClip := ⟨"run", 2, 25, []⟩

/-- A zero-duration clip. -/
def zeroClip : AnimationClip := ⟨"idle", 0, 25, []⟩

/-- `AnimationController::AnimationController()`: empty maps and layer list,
not playing, not paused, simple-playback mode. -/
def ctrl0 : ControllerState :=
  ⟨[], [], [], "", "", [], false, false, false, [], [], [], [], []⟩

/-- A controller with two registered clips. -/
def ctrlBase : ControllerState :=
  { ctrl0 with animationClips := [("walk", walkClip), ("run", runClip)] }

/-- A controller with a zero-duration clip as first layer. -/
def ctrlZeroDur : ControllerState :=
  { ctrl0 with
    animationClips := [("idle", zeroClip)],
    playingAnimations := [⟨zeroClip, 0, 1, 1, true, false, 0, 0⟩],
    isPlaying := true }

/-- The layer used by the claim-C1 counterexample: full weight, mid-crossfade
(`blendTime = 0`, `blendDuration = 1`). -/
def paCex : PlayingAnimation := ⟨walkClip, 0, 1, 1, true, true, 0, 1⟩

/-- Controller holding `paCex` as its only layer. -/
def ctrlCexBlend : ControllerState :=
  { ctrlBase with playingAnimations := [paCex], isPlaying := true }

/-- Controller for the claim-C2 counterexample: one bone, one half-weight
layer. -/
noncomputable def ctrlCexHalf : ControllerState :=
  { ctrlBase with
    playingAnimations := [⟨walkClip, 0, 1, 1/2, true, false, 0, 0⟩],
    isPlaying := true,
    boneTransforms := [1] }

/-- Controller with states A and B (both on clip "walk") and a transition
edge A → B. -/
def ctrlSM : ControllerState :=
  ((ctrlBase.addState "A" "walk" true 1).addState "B" "walk" true 1).addTransition "A" "B" (3/10)

/-- Same two states but no transition edge. -/
def ctrlSMnoEdge : ControllerState :=
  (ctrlBase.addState "A" "walk" true 1).addState "B" "walk" true 1

/-- The state record `AddState "B" "walk"` creates. -/
def stB : AnimationState := ⟨"B", walkClip, true, 1, 3/10, 3/10⟩

/-- The transition record `AddTransition "A" "B" 0.3` creates. -/
def trAB : AnimationTransition := ⟨"A", "B", 3/10, false, 9/10, ""⟩

/-- The non-unit quaternion of the claim-C7 counterexample. -/
def qTwo : Quat := ⟨0, 0, 0, 2⟩

/-- Rotation keys with strictly increasing times holding a non-unit
quaternion. -/
def cexRotKeys : List (Keyframe Quat) := [⟨0, qTwo⟩, ⟨1, qTwo⟩]

/-- Channel for the claim-C7 counterexample. -/
def cexChannel : AnimationChannel := ⟨"bone0", 0, [], cexRotKeys, []⟩

/-- Channel for the claim-C7 witness: two position keys, two scale keys, two
unit-quaternion rotation keys. -/
def witChannel : AnimationChannel :=
  ⟨"bone0", 0,
    [⟨0, ⟨0, 0, 0⟩⟩, ⟨1, ⟨1, 0, 0⟩⟩],
    [⟨0, ⟨0, 0, 0, 1⟩⟩, ⟨1, ⟨0, 0, 0, 1⟩⟩],
    [⟨0, ⟨1, 1, 1⟩⟩, ⟨1, ⟨2, 2, 2⟩⟩]⟩

/-- Clip with no channels and positive duration (claim C6). -/
def zeroChClip : AnimationClip := ⟨"empty", 1, 25, []⟩

/-- Clip holding `witChannel` (bone index 0). -/
def witClip : AnimationClip := ⟨"wit", 1, 25, [witChannel]⟩

/-- Whether a channel writes output slot `k` of an array of length `L` in
`SampleAnimation`: bone index bound, in range, and equal to `k`. -/
def writesSlot (c : AnimationChannel) (k L : ℕ) : Bool :=
  decide (0 ≤ c.boneIndex ∧ c.boneIndex < (L : ℤ) ∧ c.boneIndex.toNat = k)

/-- The last channel of `cs` that writes slot `k` (the one whose sample
survives in the output), if any. -/
def lastWrite (cs : List AnimationChannel) (k L : ℕ) : Option AnimationChannel :=
  (cs.filter fun c => writesSlot c k L).getLast?

/-- The two-node hierarchy: node `0` is the root, node `1` its child. -/
def forest2 : Forest 2 :=
  ⟨fun i => if i = 1 then some 0 else none, by decide⟩

/-- Both transforms freshly constructed. -/
noncomputable def tstate2 : TState 2 := fun _ => TNode.init

/-! # Theorems

Helper lemmas first, then one theorem per claim (with its witness or
counterexample). -/

theorem truncQ_eq_floor {q : ℚ} (h : 0 ≤ q) : truncQ q = ⌊q⌋ := by
  simp [truncQ, h]

theorem truncQ_eq_ceil {q : ℚ} (h : ¬ 0 ≤ q) : truncQ q = ⌈q⌉ := by
  simp [truncQ, h]

/-- For nonnegative dividend and positive divisor, `fmodQ x y ∈ [0, y)`. -/
theorem fmodQ_nonneg_lt {x y : ℚ} (hx : 0 ≤ x) (hy : 0 < y) :
    0 ≤ fmodQ x y ∧ fmodQ x y < y := by
  have hq : 0 ≤ x / y := div_nonneg hx hy.le
  have h1 : (⌊x / y⌋ : ℚ) ≤ x / y := Int.floor_le _
  have h2 : x / y < ⌊x / y⌋ + 1 := Int.lt_floor_add_one _
  rw [fmodQ, truncQ_eq_floor hq]
  constructor
  · have := mul_le_mul_of_nonneg_left h1 hy.le
    rw [mul_div_cancel₀ _ hy.ne.symm] at this
    linarith
  · have := mul_lt_mul_of_pos_left h2 hy
    rw [mul_div_cancel₀ _ hy.ne.symm] at this
    linarith

/-- For negative dividend and positive divisor, `fmodQ x y ∈ (-y, 0]`. -/
theorem fmodQ_neg_le {x y : ℚ} (hx : x < 0) (hy : 0 < y) :
    -y < fmodQ x y ∧ fmodQ x y ≤ 0 := by
  have hq : ¬ 0 ≤ x / y := by
    simp only [not_le]
    exact div_neg_of_neg_of_pos hx hy
  have h1 : x / y ≤ ⌈x / y⌉ := Int.le_ceil _
  have h2 : (⌈x / y⌉ : ℚ) < x / y + 1 := Int.ceil_lt_add_one _
  rw [fmodQ, truncQ_eq_ceil hq]
  constructor
  · have := mul_lt_mul_of_pos_left h2 hy
    rw [mul_add, mul_div_cancel₀ _ hy.ne.symm] at this
    linarith
  · have := mul_le_mul_of_nonneg_left h1 hy.le
    rw [mul_div_cancel₀ _ hy.ne.symm] at this
    linarith

/-- If `0 ≤ x < y`, `fmodQ x y = x`. -/
theorem fmodQ_eq_self {x y : ℚ} (hx : 0 ≤ x) (hxy : x < y) : fmodQ x y = x := by
  have hy : 0 < y := lt_of_le_of_lt hx hxy
  have hq : 0 ≤ x / y := div_nonneg hx hy.le
  have hlt : x / y < 1 := (div_lt_one hy).2 hxy
  have : ⌊x / y⌋ = 0 := by
    rw [Int.floor_eq_zero_iff]
    exact ⟨hq, hlt⟩
  rw [fmodQ, truncQ_eq_floor hq, this]
  push_cast
  ring

/-- `fmodQ y y = 0` for any nonzero `y`. -/
theorem fmodQ_self {y : ℚ} (hy : y ≠ 0) : fmodQ y y = 0 := by
  have : y / y = 1 := div_self hy
  rw [fmodQ, this]
  norm_num [truncQ]

/-- `clampQ` is the identity on `[lo, hi]`. -/
theorem clampQ_eq_self {v lo hi : ℚ} (h1 : lo ≤ v) (h2 : v ≤ hi) : clampQ v lo hi = v := by
  rw [clampQ, if_neg (not_lt.2 h1), if_neg (not_lt.2 h2)]

theorem fmodQ_neg3_2 : fmodQ (-3) 2 = -1 := by
  rw [fmodQ, truncQ_eq_ceil (by norm_num)]
  rw [show ⌈((-3 : ℚ)/2)⌉ = -1 from by rw [Int.ceil_eq_iff] <;> norm_num]
  norm_num

theorem fmodQ_neg2_2 : fmodQ (-2) 2 = 0 := by
  rw [fmodQ, truncQ_eq_ceil (by norm_num)]
  rw [show ((-2 : ℚ)/2) = ((-1 : ℤ) : ℚ) by norm_num, Int.ceil_intCast]
  norm_num

/-! ## Claim C8: `LoopTime` wrapping -/

/-- Claim C8 (corrected): for `duration > 0`, `LoopTime(t)` lies in
`[0, duration)` and is idempotent, and for `duration ≤ 0` it returns `0`, as
claimed; but a negative `t` wraps to `duration + fmod(t, duration)` only when
`fmod(t, duration) ≠ 0` — a negative exact multiple of the duration (where
`fmod(t, duration) = 0`) yields `0`, not `duration`, because the shifted time
is reduced by `fmod` once more. -/
theorem C8_loopTime_wrap (clip : AnimationClip) (t : ℚ) :
    (clip.duration ≤ 0 → clip.loopTime t = 0) ∧
    (0 < clip.duration →
      (0 ≤ clip.loopTime t ∧ clip.loopTime t < clip.duration) ∧
      clip.loopTime (clip.loopTime t) = clip.loopTime t ∧
      (t < 0 → fmodQ t clip.duration ≠ 0 →
        clip.loopTime t = clip.duration + fmodQ t clip.duration) ∧
      (t < 0 → fmodQ t clip.duration = 0 → clip.loopTime t = 0)) := by
  by_cases hd : clip.duration ≤ 0
  · exact ⟨fun _ => by simp [AnimationClip.loopTime, hd],
      fun h => absurd hd (not_le.2 h)⟩
  · have hd0 : 0 < clip.duration := not_le.1 hd
    have hval : ∀ u : ℚ, clip.loopTime u =
        fmodQ (if u < 0 then clip.duration + fmodQ u clip.duration else u) clip.duration := by
      intro u
      simp only [AnimationClip.loopTime, if_neg hd]
    have hrange : ∀ u : ℚ, 0 ≤ clip.loopTime u ∧ clip.loopTime u < clip.duration := by
      intro u
      rw [hval u]
      by_cases hu : u < 0
      · rw [if_pos hu]
        obtain ⟨hm1, hm2⟩ := fmodQ_neg_le hu hd0
        rcases eq_or_lt_of_le hm2 with heq | hlt
        · rw [heq, add_zero, fmodQ_self hd0.ne.symm]
          exact ⟨le_refl 0, hd0⟩
        · have h0 : 0 ≤ clip.duration + fmodQ u clip.duration := by linarith
          have h1 : clip.duration + fmodQ u clip.duration < clip.duration := by linarith
          rw [fmodQ_eq_self h0 h1]
          exact ⟨h0, h1⟩
      · rw [if_neg hu]
        exact fmodQ_nonneg_lt (not_lt.1 hu) hd0
    refine ⟨fun h => absurd h hd, fun _ => ⟨hrange t, ?_, ?_, ?_⟩⟩
    · obtain ⟨h0, h1⟩ := hrange t
      rw [hval (clip.loopTime t), if_neg (not_lt.2 h0), fmodQ_eq_self h0 h1]
    · intro ht hne
      obtain ⟨hm1, hm2⟩ := fmodQ_neg_le ht hd0
      have hlt : fmodQ t clip.duration < 0 := lt_of_le_of_ne hm2 hne
      have h0 : 0 ≤ clip.duration + fmodQ t clip.duration := by linarith
      have h1 : clip.duration + fmodQ t clip.duration < clip.duration := by linarith
      rw [hval t, if_pos ht, fmodQ_eq_self h0 h1]
    · intro ht hz
      rw [hval t, if_pos ht, hz, add_zero, fmodQ_self hd0.ne.symm]

/-- Witness for claim C8: `runClip` has duration `2 > 0`; at `t = -3` (not a
multiple of the duration) the wrap produces `2 + fmod(-3, 2) = 1`. -/
theorem C8_loopTime_wrap_witness :
    (0 < runClip.duration ∧ (-3 : ℚ) < 0 ∧ fmodQ (-3) runClip.duration ≠ 0) ∧
    ((0 ≤ runClip.loopTime (-3) ∧ runClip.loopTime (-3) < runClip.duration) ∧
      runClip.loopTime (runClip.loopTime (-3)) = runClip.loopTime (-3) ∧
      runClip.loopTime (-3) = runClip.duration + fmodQ (-3) runClip.duration) := by
  have h := (C8_loopTime_wrap runClip (-3)).2 (by norm_num [runClip])
  have hnz : fmodQ (-3) runClip.duration ≠ 0 := by
    rw [show runClip.duration = 2 from rfl, fmodQ_neg3_2]
    norm_num
  exact ⟨⟨by norm_num [runClip], by norm_num, hnz⟩,
    h.1, h.2.1, h.2.2.1 (by norm_num) hnz⟩

/-- The counterexample input to claim C8 as stated: `t = -2` is negative and
`runClip.duration = 2`, but `LoopTime(-2) = 0`, not
`duration + fmod(-2, duration) = 2` — the claimed wrap formula fails at
negative exact multiples of the duration (and `2` would also violate the
claimed range `[0, duration)`). -/
theorem C8_loopTime_wrap_cex :
    runClip.loopTime (-2) = 0 ∧ (-2 : ℚ) < 0 ∧
    runClip.duration + fmodQ (-2) runClip.duration = 2 ∧ (0 : ℚ) ≠ 2 := by
  refine ⟨?_, by norm_num, ?_, by norm_num⟩
  · show (if (2 : ℚ) ≤ 0 then 0
      else fmodQ (if (-2 : ℚ) < 0 then 2 + fmodQ (-2) 2 else -2) 2) = 0
    rw [if_neg (by norm_num), if_pos (by norm_num), fmodQ_neg2_2, add_zero,
      fmodQ_self (by norm_num)]
  · rw [show runClip.duration = 2 from rfl, fmodQ_neg2_2]
    norm_num

/-! ## Claim C9: missing-clip calls leave the controller untouched -/

/-- Claim C9 (confirmed): `Play`, `CrossFade` and `AddLayer` with an
unregistered clip name, and `AddState` with an unregistered clip name, log and
return with the controller state exactly as it was — layers, flags, mode,
states, parameters and bone transforms included (the equality is on the whole
embedded state). -/
theorem C9_missing_clip_noop (s : ControllerState) (name stateName : String)
    (loop : Bool) (speed weight fade : ℚ)
    (h : s.getAnimationClip name = none) :
    s.play name loop speed = s ∧
    s.crossFade name fade loop speed = s ∧
    s.addLayer name weight loop speed = s ∧
    s.addState stateName name loop speed = s := by
  refine ⟨?_, ?_, ?_, ?_⟩
  · simp [ControllerState.play, h]
  · simp [ControllerState.crossFade, h]
  · simp [ControllerState.addLayer, h]
  · simp [ControllerState.addState, h]

/-- Witness for claim C9: `ctrlBase` has clips "walk" and "run" registered;
"jump" is unknown, and all four calls leave the state unchanged. -/
theorem C9_missing_clip_noop_witness :
    ctrlBase.getAnimationClip "jump" = none ∧
    (ctrlBase.play "jump" true 1 = ctrlBase ∧
      ctrlBase.crossFade "jump" (3/10) true 1 = ctrlBase ∧
      ctrlBase.addLayer "jump" (1/2) true 1 = ctrlBase ∧
      ctrlBase.addState "S" "jump" true 1 = ctrlBase) :=
  ⟨rfl, C9_missing_clip_noop ctrlBase "jump" "S" true 1 (1/2) (3/10) rfl⟩

/-! ## Claim C10: getters on an empty layer list -/

/-- Claim C10 (confirmed): with no active layers, `GetCurrentTime` and
`GetNormalizedTime` return `0` and `GetCurrentAnimationName` returns the
empty string; `GetNormalizedTime` also returns `0` whenever the first layer's
clip duration is non-positive (the division is behind a `duration > 0`
guard).  The getters are embedded as pure functions of the state, which is
exactly the no-mutation part of the claim (`const` methods reading only
`m_playingAnimations`). -/
theorem C10_empty_getters (s : ControllerState) :
    (s.playingAnimations = [] →
      s.getCurrentTime = 0 ∧ s.getNormalizedTime = 0 ∧ s.getCurrentAnimationName = "") ∧
    (∀ pa rest, s.playingAnimations = pa :: rest → pa.clip.duration ≤ 0 →
      s.getNormalizedTime = 0) := by
  constructor
  · intro h
    refine ⟨?_, ?_, ?_⟩ <;>
      simp [ControllerState.getCurrentTime, ControllerState.getNormalizedTime,
        ControllerState.getCurrentAnimationName, h]
  · intro pa rest h hdur
    simp [ControllerState.getNormalizedTime, h, not_lt.2 hdur]

/-- Witness for claim C10: the freshly constructed controller `ctrl0` (no
layers) and `ctrlZeroDur` (first layer's clip has duration `0`). -/
theorem C10_empty_getters_witness :
    (ctrl0.getCurrentTime = 0 ∧ ctrl0.getNormalizedTime = 0 ∧
      ctrl0.getCurrentAnimationName = "") ∧
    ctrlZeroDur.getNormalizedTime = 0 :=
  ⟨(C10_empty_getters ctrl0).1 rfl,
    (C10_empty_getters ctrlZeroDur).2 ⟨zeroClip, 0, 1, 1, true, false, 0, 0⟩ [] rfl
      (by norm_num [zeroClip])⟩

/-! ## Claim C3: state-machine mode versus simple-playback mode -/

/-- Claim C3 (corrected): the mode flag is switched as follows.  `Play` and
`CrossFade` with a known clip switch to simple-playback mode, as claimed.
`AddLayer` never writes the mode flag (the claim said it switches to
simple-playback mode).  `TransitionToState` to an existing, non-current state
switches to state-machine mode only when no transition edge from the current
state to the target exists; when such an edge exists (and the target state's
clip name resolves in the clip map), the internally invoked `CrossFade`
switches the controller back to simple-playback mode, so the call ends in
simple-playback mode — the opposite of the claim for exactly the case the
claim singles out. -/
theorem C3_mode_switch (s : ControllerState) (clipName stateName : String)
    (fade w speed : ℚ) (loop : Bool) :
    ((s.getAnimationClip clipName).isSome →
      (s.play clipName loop speed).useStateMachine = false ∧
      (s.crossFade clipName fade loop speed).useStateMachine = false) ∧
    (s.addLayer clipName w loop speed).useStateMachine = s.useStateMachine ∧
    (∀ st, s.findState stateName = some st → s.currentState ≠ stateName →
      ((((s.findTransitionsFromState s.currentState).find?
            fun tr => tr.toState = stateName) = none →
          (s.transitionToState stateName).useStateMachine = true) ∧
        (∀ tr, ((s.findTransitionsFromState s.currentState).find?
            fun tr => tr.toState = stateName) = some tr →
          (s.getAnimationClip st.clip.name).isSome →
          (s.transitionToState stateName).useStateMachine = false))) := by
  refine ⟨?_, ?_, ?_⟩
  · intro hs
    obtain ⟨clip, hc⟩ := Option.isSome_iff_exists.1 hs
    exact ⟨by simp [ControllerState.play, hc], by simp [ControllerState.crossFade, hc]⟩
  · cases h : s.getAnimationClip clipName <;> simp [ControllerState.addLayer, h]
  · intro st hst hne
    constructor
    · intro hnone
      simp only [ControllerState.transitionToState, hst, if_neg hne]
      have hnone2 : ((({ s with targetState := stateName, useStateMachine := true } :
          ControllerState).findTransitionsFromState
            ({ s with targetState := stateName, useStateMachine := true } :
              ControllerState).currentState).find?
              fun tr => tr.toState = stateName) = none := hnone
      rw [hnone2]
    · intro tr htr hclip
      obtain ⟨clip2, hc2⟩ := Option.isSome_iff_exists.1 hclip
      have hname : tr.toState = stateName := by
        have := List.find?_some htr
        exact of_decide_eq_true this
      simp only [ControllerState.transitionToState, hst, if_neg hne]
      have htr2 : ((({ s with targetState := stateName, useStateMachine := true } :
          ControllerState).findTransitionsFromState
            ({ s with targetState := stateName, useStateMachine := true } :
              ControllerState).currentState).find?
              fun tr => tr.toState = stateName) = some tr := htr
      rw [htr2]
      have hfind : ({ s with targetState := stateName, useStateMachine := true } :
          ControllerState).findState tr.toState = some st := by
        rw [hname]; exact hst
      simp only [ControllerState.startTransition, hfind]
      have hc2b : ({ s with targetState := stateName, useStateMachine := true } :
          ControllerState).getAnimationClip st.clip.name = some clip2 := hc2
      simp only [ControllerState.crossFade, hc2b]

/-- Witness for claim C3: on `ctrlSM` (states A and B, edge A → B, current
state A), `Play`/`CrossFade` end in simple-playback mode, `AddLayer` keeps
the mode, and `TransitionToState "B"` — which fires the A → B edge — also
ends in simple-playback mode. -/
theorem C3_mode_switch_witness :
    ((ctrlSM.getAnimationClip "walk").isSome ∧
      ctrlSM.findState "B" = some stB ∧ ctrlSM.currentState ≠ "B" ∧
      ((ctrlSM.findTransitionsFromState ctrlSM.currentState).find?
        fun tr => tr.toState = "B") = some trAB ∧
      (ctrlSM.getAnimationClip stB.clip.name).isSome) ∧
    ((ctrlSM.play "walk" true 1).useStateMachine = false ∧
      (ctrlSM.crossFade "walk" (3/10) true 1).useStateMachine = false) ∧
    (ctrlSM.addLayer "walk" 1 true 1).useStateMachine = ctrlSM.useStateMachine ∧
    (ctrlSM.transitionToState "B").useStateMachine = false := by
  have h := C3_mode_switch ctrlSM "walk" "B" (3/10) 1 1 true
  have h3 := (h.2.2 stB rfl (by decide)).2 trAB rfl rfl
  exact ⟨⟨rfl, rfl, by decide, rfl, rfl⟩, h.1 rfl, h.2.1, h3⟩

/-- The counterexample inputs to claim C3 as stated: `TransitionToState "B"`
on `ctrlSM` (a call that starts a crossfade through the defined A → B edge)
leaves `m_useStateMachine = false`, i.e. simple-playback mode, not
state-machine mode; and `AddLayer` on a controller in state-machine mode
(`ctrlSMnoEdge` after `TransitionToState "B"`, which finds no edge) leaves it
in state-machine mode, not simple-playback mode. -/
theorem C3_mode_switch_cex :
    (ctrlSM.transitionToState "B").useStateMachine = false ∧
    ((ctrlSMnoEdge.transitionToState "B").addLayer "walk" 1 true 1).useStateMachine
      = true := by
  exact ⟨rfl, rfl⟩

/-! ## Claim C6: `SampleAnimation` slot writes -/

theorem sampleFold_length (nt : ℚ) (cs : List AnimationChannel) (acc : List Mat4) :
    (cs.foldl (fun acc c =>
      if 0 ≤ c.boneIndex ∧ c.boneIndex < (acc.length : ℤ) then
        acc.set c.boneIndex.toNat (c.sampleTransform nt)
      else acc) acc).length = acc.length := by
  induction cs generalizing acc with
  | nil => rfl
  | cons c cs ih =>
    rw [List.foldl_cons, ih]
    split
    · exact List.length_set ..
    · rfl

theorem sampleFold_getElem (nt : ℚ) (cs : List AnimationChannel) (acc : List Mat4)
    (k : ℕ) (hk : k < acc.length) :
    (cs.foldl (fun acc c =>
      if 0 ≤ c.boneIndex ∧ c.boneIndex < (acc.length : ℤ) then
        acc.set c.boneIndex.toNat (c.sampleTransform nt)
      else acc) acc)[k]? =
    (match lastWrite cs k acc.length with
      | some c => some (c.sampleTransform nt)
      | none => acc[k]?) := by
  induction cs generalizing acc with
  | nil => simp [lastWrite]
  | cons c cs ih =>
    rw [List.foldl_cons]
    by_cases hw : writesSlot c k acc.length = true
    · obtain ⟨h0, hL, hkk⟩ := of_decide_eq_true hw
      have hcond : 0 ≤ c.boneIndex ∧ c.boneIndex < (acc.length : ℤ) := ⟨h0, hL⟩
      rw [if_pos hcond]
      have hlen : (acc.set c.boneIndex.toNat (c.sampleTransform nt)).length = acc.length :=
        List.length_set ..
      have hset : (acc.set c.boneIndex.toNat (c.sampleTransform nt))[k]? =
          some (c.sampleTransform nt) := by
        rw [List.getElem?_set, if_pos hkk, if_pos (hkk ▸ hk)]
      cases hcs : cs.filter fun c => writesSlot c k acc.length with
      | nil =>
        have h1 : lastWrite cs k acc.length = none := by
          simp only [lastWrite, hcs]
          rfl
        have h2 : lastWrite (c :: cs) k acc.length = some c := by
          simp only [lastWrite, List.filter_cons, if_pos hw, hcs]
          rfl
        rw [ih _ (hlen ▸ hk), hlen, h1, h2, hset]
      | cons d ds =>
        have h1 : lastWrite cs k acc.length = (d :: ds).getLast? := by
          simp only [lastWrite, hcs]
        have h2 : lastWrite (c :: cs) k acc.length = (d :: ds).getLast? := by
          simp only [lastWrite, List.filter_cons, if_pos hw, hcs, List.getLast?_cons_cons]
        rw [ih _ (hlen ▸ hk), hlen, h1, h2]
        cases hdd : (d :: ds).getLast? with
        | none => simp [List.getLast?_eq_none_iff] at hdd
        | some e => rfl
    · have hwf : writesSlot c k acc.length = false := eq_false_of_ne_true hw
      have h2 : lastWrite (c :: cs) k acc.length = lastWrite cs k acc.length := by
        simp only [lastWrite, List.filter_cons, hwf]
        rfl
      by_cases hcond : 0 ≤ c.boneIndex ∧ c.boneIndex < (acc.length : ℤ)
      · have hne : c.boneIndex.toNat ≠ k := by
          intro hkk
          exact hw (decide_eq_true ⟨hcond.1, hcond.2, hkk⟩)
        rw [if_pos hcond]
        have hlen : (acc.set c.boneIndex.toNat (c.sampleTransform nt)).length = acc.length :=
          List.length_set ..
        have hset : (acc.set c.boneIndex.toNat (c.sampleTransform nt))[k]? = acc[k]? := by
          rw [List.getElem?_set, if_neg hne]
        rw [ih _ (hlen ▸ hk), hlen, h2, hset]
      · rw [if_neg hcond, ih _ hk, h2]

/-- Claim C6 (corrected): with a non-empty output array, `SampleAnimation`
first resets every slot to the identity, then overwrites exactly the slots
some in-range channel is bound to (the last such channel winning), so a slot
with no channel ends as the identity matrix — not at the value the caller
supplied, as the claim stated; an empty output array is returned unchanged
after a warning, as claimed. -/
theorem C6_sample_overwrite (clip : AnimationClip) (t : ℚ) (out : List Mat4) :
    (out = [] → clip.sampleAnimation t out = out) ∧
    (out ≠ [] →
      (clip.sampleAnimation t out).length = out.length ∧
      ∀ k, k < out.length →
        (clip.sampleAnimation t out)[k]? =
          (match lastWrite clip.channels k out.length with
            | some c => some (c.sampleTransform (clip.normalizeTime t))
            | none => some (1 : Mat4))) := by
  constructor
  · intro h; subst h; rfl
  · intro h
    have hne : ¬ (out.isEmpty = true) := by
      cases out with
      | nil => exact absurd rfl h
      | cons a l => simp
    unfold AnimationClip.sampleAnimation
    rw [if_neg hne]
    have hlen : (out.map fun _ => (1 : Mat4)).length = out.length := List.length_map ..
    refine ⟨by rw [sampleFold_length]; exact hlen, ?_⟩
    intro k hk
    rw [sampleFold_getElem _ _ _ k (hlen ▸ hk), hlen]
    cases hmatch : lastWrite clip.channels k out.length with
    | some c => rfl
    | none =>
      have hout : ∃ x, out[k]? = some x := by
        have := List.getElem?_eq_getElem hk
        exact ⟨_, this⟩
      obtain ⟨x, hx⟩ := hout
      rw [List.getElem?_map, hx]
      rfl

/-- Witness for claim C6: `witClip` (one channel on bone 0) sampled into a
one-slot array. -/
theorem C6_sample_overwrite_witness :
    (([(1 : Mat4)] : List Mat4) ≠ []) ∧
    ((witClip.sampleAnimation 0 [(1 : Mat4)]).length = ([(1 : Mat4)] : List Mat4).length ∧
      ∀ k, k < ([(1 : Mat4)] : List Mat4).length →
        (witClip.sampleAnimation 0 [(1 : Mat4)])[k]? =
          (match lastWrite witClip.channels k ([(1 : Mat4)] : List Mat4).length with
            | some c => some (c.sampleTransform (witClip.normalizeTime 0))
            | none => some (1 : Mat4))) :=
  ⟨List.cons_ne_nil _ _,
    (C6_sample_overwrite witClip 0 [(1 : Mat4)]).2 (List.cons_ne_nil _ _)⟩

/-- The counterexample input to claim C6 as stated: a clip with no channels
sampled into a one-slot array holding a non-identity matrix.  The claim says
the untouched slot keeps the caller-supplied value; the code resets it to the
identity. -/
theorem C6_sample_overwrite_cex :
    zeroChClip.sampleAnimation 0 [xmMatrixTranslation 5 0 0] = [(1 : Mat4)] ∧
    xmMatrixTranslation 5 0 0 ≠ (1 : Mat4) := by
  constructor
  · rfl
  · intro hcontra
    have h50 := congrFun (congrFun hcontra 3) 0
    rw [Matrix.one_apply, if_neg (show ¬ ((3 : Fin 4) = 0) by decide)] at h50
    norm_num [xmMatrixTranslation] at h50

/-! ## Claim C7: keyframe lookup and boundary exactness -/

theorem lowerBound_le_length {α : Type} (keys : List (Keyframe α)) (t : ℚ) :
    lowerBound keys t ≤ keys.length := by
  induction keys with
  | nil => exact Nat.le_refl 0
  | cons k ks ih =>
    rw [lowerBound]
    split
    · exact Nat.succ_le_succ ih
    · exact Nat.zero_le _

theorem lowerBound_lt_mem {α : Type} (keys : List (Keyframe α)) (t : ℚ) (m : ℕ)
    (hm : m < lowerBound keys t) : ∃ k, keys[m]? = some k ∧ k.time < t := by
  induction keys generalizing m with
  | nil => exact absurd hm (Nat.not_lt_zero m)
  | cons k ks ih =>
    rw [lowerBound] at hm
    by_cases hkt : k.time < t
    · rw [if_pos hkt] at hm
      cases m with
      | zero => exact ⟨k, by simp, hkt⟩
      | succ m =>
        obtain ⟨k2, h1, h2⟩ := ih m (Nat.lt_of_succ_lt_succ hm)
        exact ⟨k2, by simpa using h1, h2⟩
    · rw [if_neg hkt] at hm
      exact absurd hm (Nat.not_lt_zero m)

theorem lowerBound_at_key {α : Type} (keys : List (Keyframe α))
    (hp : keys.Pairwise (fun a b => a.time < b.time))
    (j : ℕ) (kj : Keyframe α) (hj : keys[j]? = some kj) :
    lowerBound keys kj.time = j := by
  induction keys generalizing j with
  | nil => cases hj
  | cons k ks ih =>
    obtain ⟨hrel, hptail⟩ := List.pairwise_cons.1 hp
    cases j with
    | zero =>
      have : k = kj := by simpa using hj
      subst this
      rw [lowerBound, if_neg (lt_irrefl k.time)]
    | succ j =>
      have hjs : ks[j]? = some kj := by simpa using hj
      have hmem : kj ∈ ks := by
        obtain ⟨hlt, heq⟩ := List.getElem?_eq_some.1 hjs
        exact heq ▸ List.getElem_mem hlt
      rw [lowerBound, if_pos (hrel kj hmem), ih hptail j hjs]

theorem findKeyframe_at_key {α : Type} (keys : List (Keyframe α))
    (hp : keys.Pairwise (fun a b => a.time < b.time))
    (j : ℕ) (kj : Keyframe α) (hj : keys[j]? = some kj) :
    findKeyframe keys kj.time = if j = 0 then 0 else j - 1 := by
  have hjlt : j < keys.length := (List.getElem?_eq_some.1 hj).1
  have hne : ¬ (keys.isEmpty = true) := by
    cases keys with
    | nil => cases hj
    | cons a l => simp
  rw [findKeyframe, if_neg hne, lowerBound_at_key keys hp j kj hj,
    if_neg (Nat.ne_of_lt hjlt)]

/-- Generic form of claim C7's exactness: with strictly increasing key times
and an interpolation helper that is exact at the endpoints of every adjacent
key pair, sampling at any key's stored time returns that key's value. -/
theorem sampleKeys_at_key {α : Type} (dflt : α) (interp : α → α → ℚ → α)
    (keys : List (Keyframe α))
    (hp : keys.Pairwise (fun a b => a.time < b.time))
    (hadj : ∀ (i : ℕ) (k1 k2 : Keyframe α), keys[i]? = some k1 → keys[i + 1]? = some k2 →
      interp k1.value k2.value 0 = k1.value ∧ interp k1.value k2.value 1 = k2.value)
    (j : ℕ) (kj : Keyframe α) (hj : keys[j]? = some kj) :
    sampleKeys dflt interp keys kj.time = kj.value := by
  match keys, hp, hadj, hj with
  | [], _, _, hj => cases hj
  | [k], _, _, hj =>
    have hj0 : j = 0 := by
      have h1 : j < 1 := by simpa using (List.getElem?_eq_some.1 hj).1
      omega
    subst hj0
    have : k = kj := by simpa using hj
    subst this
    rfl
  | k0 :: k1 :: ks, hp, hadj, hj =>
    have hfind := findKeyframe_at_key (k0 :: k1 :: ks) hp j kj hj
    have hjlt : j < (k0 :: k1 :: ks).length := (List.getElem?_eq_some.1 hj).1
    show sampleKeys dflt interp (k0 :: k1 :: ks) kj.time = kj.value
    simp only [sampleKeys]
    cases hjz : j with
    | zero =>
      subst hjz
      have hk0 : k0 = kj := by simpa using hj
      subst hk0
      have hfind0 : findKeyframe (k0 :: k1 :: ks) k0.time = 0 := by
        rw [hfind]
        norm_num
      rw [hfind0]
      rw [if_neg (by simp)]
      have hd1 : (k0 :: k1 :: ks).getD 0 k0 = k0 := rfl
      have hd2 : (k0 :: k1 :: ks).getD (0 + 1) k0 = k1 := rfl
      rw [hd1, hd2]
      have hlt : k0.time < k1.time := (List.pairwise_cons.1 hp).1 k1 (by simp)
      rw [if_neg (not_le.2 (by linarith : (0 : ℚ) < k1.time - k0.time))]
      have hu : clampQ ((k0.time - k0.time) / (k1.time - k0.time)) 0 1 = 0 := by
        rw [sub_self, zero_div, clampQ_eq_self (le_refl 0) (by norm_num)]
      rw [hu]
      exact (hadj 0 k0 k1 (by simp) (by simp)).1
    | succ jj =>
      subst hjz
      have hfindj : findKeyframe (k0 :: k1 :: ks) kj.time = jj := by
        rw [hfind, if_neg (Nat.succ_ne_zero jj), Nat.succ_sub_one]
      rw [hfindj]
      have hjj : jj < (k0 :: k1 :: ks).length := Nat.lt_of_succ_lt hjlt
      have hk1 : (k0 :: k1 :: ks)[jj]? = some ((k0 :: k1 :: ks)[jj]) :=
        List.getElem?_eq_getElem hjj
      set kp := (k0 :: k1 :: ks)[jj] with hkp
      have hne : ¬ (jj = (k0 :: k1 :: ks).length - 1) := by
        simp only [List.length_cons] at hjlt ⊢
        omega
      rw [if_neg hne]
      have hd1 : (k0 :: k1 :: ks).getD jj k0 = kp := by
        rw [List.getD_eq_getElem?_getD, hk1]
        rfl
      have hd2 : (k0 :: k1 :: ks).getD (jj + 1) k0 = kj := by
        rw [List.getD_eq_getElem?_getD, hj]
        rfl
      rw [hd1, hd2]
      have hlt : kp.time < kj.time := by
        have hrel := List.pairwise_iff_getElem.1 hp jj (jj + 1) hjj hjlt (Nat.lt_succ_self jj)
        have hkje : (k0 :: k1 :: ks)[jj + 1] = kj := (List.getElem?_eq_some.1 hj).2
        rw [hkje] at hrel
        exact hrel
      rw [if_neg (not_le.2 (by linarith : (0 : ℚ) < kj.time - kp.time))]
      have hu : clampQ ((kj.time - kp.time) / (kj.time - kp.time)) 0 1 = 1 := by
        rw [div_self (by linarith : kj.time - kp.time ≠ 0),
          clampQ_eq_self (by norm_num) (le_refl 1)]
      rw [hu]
      exact (hadj jj kp kj hk1 hj).2

theorem lowerBound_all_lt {α : Type} (keys : List (Keyframe α)) (t : ℚ)
    (h : ∀ k ∈ keys, k.time < t) : lowerBound keys t = keys.length := by
  induction keys with
  | nil => rfl
  | cons k ks ih =>
    rw [lowerBound, if_pos (h k (by simp)), ih fun k2 hk2 => h k2 (by simp [hk2])]
    rfl

/-- Generic form of claim C7's clamp-beyond-last-key behavior. -/
theorem sampleKeys_beyond_last {α : Type} (dflt : α) (interp : α → α → ℚ → α)
    (keys : List (Keyframe α))
    (hp : keys.Pairwise (fun a b => a.time < b.time))
    (klast : Keyframe α) (hlast : keys.getLast? = some klast)
    (t : ℚ) (ht : klast.time < t) :
    sampleKeys dflt interp keys t = klast.value := by
  have hall : ∀ k ∈ keys, k.time < t := by
    intro k hk
    obtain ⟨i, hi, hik⟩ := List.getElem_of_mem hk
    have hl : keys[keys.length - 1] = klast := by
      rw [List.getLast?_eq_getElem? keys] at hlast
      exact (List.getElem?_eq_some.1 hlast).2
    rcases Nat.lt_or_ge i (keys.length - 1) with hlt | hge
    · have := List.pairwise_iff_getElem.1 hp i (keys.length - 1) hi (by omega) hlt
      rw [hl, hik] at this
      linarith
    · have : i = keys.length - 1 := by omega
      subst this
      rw [hik] at hl
      subst hl
      exact ht
  have hlb := lowerBound_all_lt keys t hall
  match keys, hp, hlast, hall, hlb with
  | [], _, hlast, _, _ => cases hlast
  | [k], _, hlast, _, _ =>
    have : k = klast := by simpa using hlast
    subst this
    rfl
  | k0 :: k1 :: ks, hp, hlast, hall, hlb =>
    have hfind : findKeyframe (k0 :: k1 :: ks) t = (k0 :: k1 :: ks).length - 1 := by
      rw [findKeyframe, if_neg (by simp), hlb, if_pos rfl]
    simp only [sampleKeys, hfind, if_pos rfl]
    have : (k0 :: k1 :: ks).getD ((k0 :: k1 :: ks).length - 1) k0 = klast := by
      rw [List.getD_eq_getElem?_getD, ← List.getLast?_eq_getElem?, hlast]
      rfl
    rw [this]
    simp

/-- Generic form of claim C7's bracketing property: whenever the query time is
at or after the first key, the left bracketing key's time is `≤` it. -/
theorem findKeyframe_left_le {α : Type} (keys : List (Keyframe α))
    (k0 : Keyframe α) (h0 : keys[0]? = some k0)
    (t : ℚ) (ht : k0.time ≤ t) (d : Keyframe α) :
    (keys.getD (findKeyframe keys t) d).time ≤ t := by
  have hne : ¬ (keys.isEmpty = true) := by
    cases keys with
    | nil => cases h0
    | cons a l => simp
  have hlen : 0 < keys.length := by
    cases keys with
    | nil => cases h0
    | cons a l => simp
  rw [findKeyframe, if_neg hne]
  by_cases hend : lowerBound keys t = keys.length
  · rw [if_pos hend]
    obtain ⟨k, hk1, hk2⟩ := lowerBound_lt_mem keys t (keys.length - 1) (by omega)
    rw [List.getD_eq_getElem?_getD, hk1]
    exact le_of_lt hk2
  · rw [if_neg hend]
    by_cases hz : lowerBound keys t = 0
    · rw [if_pos hz, List.getD_eq_getElem?_getD, h0]
      exact ht
    · rw [if_neg hz]
      obtain ⟨k, hk1, hk2⟩ := lowerBound_lt_mem keys t (lowerBound keys t - 1) (by omega)
      rw [List.getD_eq_getElem?_getD, hk1]
      exact le_of_lt hk2

theorem quat_add_smul_left (q0 q1 : Quat) :
    Quat.add (Quat.smul 1 q0) (Quat.smul 0 q1) = q0 := by
  cases q0
  cases q1
  simp [Quat.add, Quat.smul]

theorem quat_add_smul_right (q0 q1 : Quat) :
    Quat.add (Quat.smul 0 q0) (Quat.smul 1 q1) = q1 := by
  cases q0
  cases q1
  simp [Quat.add, Quat.smul]

/-- `XMQuaternionSlerp` is exact at `t = 0` and `t = 1` when the two
quaternions have a nonnegative dot product (no shortest-path sign flip). -/
theorem quatSlerp_endpoints (q0 q1 : Quat) (hd : 0 ≤ Quat.dot q0 q1) :
    quatSlerp q0 q1 0 = q0 ∧ quatSlerp q0 q1 1 = q1 := by
  have hsin : Quat.dot q0 q1 < 1 - 1/100000 →
      0 < Real.sin (Real.arccos (Quat.dot q0 q1)) := by
    intro hc
    refine Real.sin_pos_of_pos_of_lt_pi (Real.arccos_pos.2 (by linarith)) ?_
    calc Real.arccos (Quat.dot q0 q1) ≤ Real.pi / 2 := Real.arccos_le_pi_div_two.2 hd
      _ < Real.pi := by linarith [Real.pi_pos]
  constructor
  · simp only [quatSlerp, if_neg (not_lt.2 hd), mul_one]
    by_cases hc : Quat.dot q0 q1 < 1 - 1/100000
    · rw [if_pos hc]
      have h1 : Real.sin ((1 - 0) * Real.arccos (Quat.dot q0 q1)) /
          Real.sin (Real.arccos (Quat.dot q0 q1)) = 1 := by
        rw [sub_zero, one_mul, div_self (hsin hc).ne.symm]
      have h2 : (1 : ℝ) * (Real.sin (0 * Real.arccos (Quat.dot q0 q1)) /
          Real.sin (Real.arccos (Quat.dot q0 q1))) = 0 := by
        rw [zero_mul, Real.sin_zero, zero_div, mul_zero]
      rw [h1, h2]
      exact quat_add_smul_left q0 q1
    · rw [if_neg hc, sub_zero, mul_zero]
      exact quat_add_smul_left q0 q1
  · simp only [quatSlerp, if_neg (not_lt.2 hd), mul_one]
    by_cases hc : Quat.dot q0 q1 < 1 - 1/100000
    · rw [if_pos hc]
      have h1 : Real.sin ((1 - 1) * Real.arccos (Quat.dot q0 q1)) /
          Real.sin (Real.arccos (Quat.dot q0 q1)) = 0 := by
        rw [sub_self, zero_mul, Real.sin_zero, zero_div]
      have h2 : (1 : ℝ) * (Real.sin (1 * Real.arccos (Quat.dot q0 q1)) /
          Real.sin (Real.arccos (Quat.dot q0 q1))) = 1 := by
        rw [one_mul, one_mul, div_self (hsin hc).ne.symm]
      rw [h1, h2]
      exact quat_add_smul_right q0 q1
    · rw [if_neg hc, sub_self]
      exact quat_add_smul_right q0 q1

/-- `XMQuaternionNormalize` fixes unit quaternions. -/
theorem quatNormalize_unit (q : Quat) (h : Quat.dot q q = 1) : quatNormalize q = q := by
  simp only [quatNormalize, h, Real.sqrt_one, if_neg one_ne_zero]
  cases q
  simp [Quat.smul]

/-- `InterpolateRotation` is exact at the endpoints for unit quaternions with
nonnegative dot product. -/
theorem interpRotation_endpoints (a b : Quat) (ha : Quat.dot a a = 1)
    (hb : Quat.dot b b = 1) (hd : 0 ≤ Quat.dot a b) :
    interpRotation a b 0 = a ∧ interpRotation a b 1 = b := by
  obtain ⟨h0, h1⟩ := quatSlerp_endpoints a b hd
  constructor
  · rw [interpRotation, Rat.cast_zero, h0]
    exact quatNormalize_unit a ha
  · rw [interpRotation, Rat.cast_one, h1]
    exact quatNormalize_unit b hb

/-- Claim C7 (corrected): for strictly increasing key times, `SamplePosition`
and `SampleScale` at exactly a stored key time return that key's stored
value (first and last key included), the bracketing pair is found by the
lower-bound search so that the left key's time is `≤` the query time
(whenever the query is at or after the first key), and queries beyond the
last key clamp to the last key's value; `SampleRotation` has the same
exactness only under the additional hypotheses the claim omits — stored
quaternions of unit length and nonnegative dot products between adjacent
keys — because the code slerps between the bracketing keys and renormalizes
(and sign-flips antipodal pairs), which changes any non-unit stored value. -/
theorem C7_keyframe_exact (c : AnimationChannel) :
    (c.positionKeys.Pairwise (fun a b => a.time < b.time) →
      (∀ (j : ℕ) (k : Keyframe Vec3Q), c.positionKeys[j]? = some k →
        c.samplePosition k.time = k.value) ∧
      (∀ (t : ℚ) (klast : Keyframe Vec3Q), c.positionKeys.getLast? = some klast →
        klast.time < t → c.samplePosition t = klast.value) ∧
      (∀ (t : ℚ) (k0 d : Keyframe Vec3Q), c.positionKeys[0]? = some k0 → k0.time ≤ t →
        (c.positionKeys.getD (findKeyframe c.positionKeys t) d).time ≤ t)) ∧
    (c.scaleKeys.Pairwise (fun a b => a.time < b.time) →
      (∀ (j : ℕ) (k : Keyframe Vec3Q), c.scaleKeys[j]? = some k →
        c.sampleScale k.time = k.value) ∧
      (∀ (t : ℚ) (klast : Keyframe Vec3Q), c.scaleKeys.getLast? = some klast →
        klast.time < t → c.sampleScale t = klast.value) ∧
      (∀ (t : ℚ) (k0 d : Keyframe Vec3Q), c.scaleKeys[0]? = some k0 → k0.time ≤ t →
        (c.scaleKeys.getD (findKeyframe c.scaleKeys t) d).time ≤ t)) ∧
    (c.rotationKeys.Pairwise (fun a b => a.time < b.time) →
      (∀ k ∈ c.rotationKeys, Quat.dot k.value k.value = 1) →
      (∀ (i : ℕ) (k1 k2 : Keyframe Quat), c.rotationKeys[i]? = some k1 →
        c.rotationKeys[i + 1]? = some k2 → 0 ≤ Quat.dot k1.value k2.value) →
      ∀ (j : ℕ) (k : Keyframe Quat), c.rotationKeys[j]? = some k →
        c.sampleRotation k.time = k.value) := by
  have hlerp : ∀ (keys : List (Keyframe Vec3Q)) (i : ℕ) (k1 k2 : Keyframe Vec3Q),
      keys[i]? = some k1 → keys[i + 1]? = some k2 →
      lerpV3 k1.value k2.value 0 = k1.value ∧ lerpV3 k1.value k2.value 1 = k2.value := by
    intro keys i k1 k2 _ _
    constructor <;> (cases hk1 : k1.value; cases hk2 : k2.value; simp [lerpV3])
  refine ⟨fun hp => ⟨?_, ?_, ?_⟩, fun hs => ⟨?_, ?_, ?_⟩, fun hr hu hnn => ?_⟩
  · intro j k hj
    exact sampleKeys_at_key _ _ _ hp (hlerp c.positionKeys) j k hj
  · intro t klast hlast ht
    exact sampleKeys_beyond_last _ _ _ hp klast hlast t ht
  · intro t k0 d h0 ht
    exact findKeyframe_left_le c.positionKeys k0 h0 t ht d
  · intro j k hj
    exact sampleKeys_at_key _ _ _ hs (hlerp c.scaleKeys) j k hj
  · intro t klast hlast ht
    exact sampleKeys_beyond_last _ _ _ hs klast hlast t ht
  · intro t k0 d h0 ht
    exact findKeyframe_left_le c.scaleKeys k0 h0 t ht d
  · intro j k hj
    refine sampleKeys_at_key _ _ _ hr ?_ j k hj
    intro i k1 k2 h1 h2
    have hm1 : k1 ∈ c.rotationKeys := by
      obtain ⟨hlt, heq⟩ := List.getElem?_eq_some.1 h1
      exact heq ▸ List.getElem_mem hlt
    have hm2 : k2 ∈ c.rotationKeys := by
      obtain ⟨hlt, heq⟩ := List.getElem?_eq_some.1 h2
      exact heq ▸ List.getElem_mem hlt
    exact interpRotation_endpoints k1.value k2.value (hu k1 hm1) (hu k2 hm2)
      (hnn i k1 k2 h1 h2)

/-- Witness for claim C7: `witChannel` has two keys per component; sampling at
the second key's time (`1`) returns each stored value exactly, and sampling at
`2` (beyond the last key) clamps to the last position key. -/
theorem C7_keyframe_exact_witness :
    (witChannel.positionKeys.Pairwise (fun a b => a.time < b.time) ∧
      witChannel.positionKeys[1]? = some ⟨1, ⟨1, 0, 0⟩⟩ ∧
      witChannel.scaleKeys[1]? = some ⟨1, ⟨2, 2, 2⟩⟩ ∧
      witChannel.rotationKeys[1]? = some ⟨1, ⟨0, 0, 0, 1⟩⟩ ∧
      witChannel.positionKeys.getLast? = some ⟨1, ⟨1, 0, 0⟩⟩ ∧
      witChannel.scaleKeys.getLast? = some ⟨1, ⟨2, 2, 2⟩⟩) ∧
    (witChannel.samplePosition 1 = ⟨1, 0, 0⟩ ∧
      witChannel.sampleScale 1 = ⟨2, 2, 2⟩ ∧
      witChannel.sampleRotation 1 = ⟨0, 0, 0, 1⟩ ∧
      witChannel.samplePosition 2 = ⟨1, 0, 0⟩ ∧
      witChannel.sampleScale 2 = ⟨2, 2, 2⟩ ∧
      (witChannel.positionKeys.getD
        (findKeyframe witChannel.positionKeys (1/2)) ⟨0, ⟨0, 0, 0⟩⟩).time ≤ 1/2 ∧
      (witChannel.scaleKeys.getD
        (findKeyframe witChannel.scaleKeys (1/2)) ⟨0, ⟨1, 1, 1⟩⟩).time ≤ 1/2) := by
  have hp : witChannel.positionKeys.Pairwise (fun a b => a.time < b.time) := by
    simp [witChannel, List.pairwise_cons]
  have hs : witChannel.scaleKeys.Pairwise (fun a b => a.time < b.time) := by
    simp [witChannel, List.pairwise_cons]
  have hr : witChannel.rotationKeys.Pairwise (fun a b => a.time < b.time) := by
    simp [witChannel, List.pairwise_cons]
  have hu : ∀ k ∈ witChannel.rotationKeys, Quat.dot k.value k.value = 1 := by
    intro k hk
    simp only [witChannel, List.mem_cons, List.not_mem_nil, or_false] at hk
    rcases hk with h | h <;> subst h <;> norm_num [Quat.dot]
  have hnn : ∀ (i : ℕ) (k1 k2 : Keyframe Quat), witChannel.rotationKeys[i]? = some k1 →
      witChannel.rotationKeys[i + 1]? = some k2 → 0 ≤ Quat.dot k1.value k2.value := by
    intro i k1 k2 h1 h2
    cases i with
    | zero =>
      have e1 : (⟨0, ⟨0, 0, 0, 1⟩⟩ : Keyframe Quat) = k1 := by
        simpa [witChannel] using h1
      have e2 : (⟨1, ⟨0, 0, 0, 1⟩⟩ : Keyframe Quat) = k2 := by
        simpa [witChannel] using h2
      subst e1
      subst e2
      norm_num [Quat.dot]
    | succ n =>
      cases n with
      | zero => simp [witChannel] at h2
      | succ m => simp [witChannel] at h2
  have h := C7_keyframe_exact witChannel
  exact ⟨⟨hp, rfl, rfl, rfl, rfl, rfl⟩,
    (h.1 hp).1 1 ⟨1, ⟨1, 0, 0⟩⟩ rfl,
    (h.2.1 hs).1 1 ⟨1, ⟨2, 2, 2⟩⟩ rfl,
    h.2.2 hr hu hnn 1 ⟨1, ⟨0, 0, 0, 1⟩⟩ rfl,
    (h.1 hp).2.1 2 ⟨1, ⟨1, 0, 0⟩⟩ rfl (by norm_num),
    (h.2.1 hs).2.1 2 ⟨1, ⟨2, 2, 2⟩⟩ rfl (by norm_num),
    (h.1 hp).2.2 (1/2) ⟨0, ⟨0, 0, 0⟩⟩ ⟨0, ⟨0, 0, 0⟩⟩ rfl (by norm_num),
    (h.2.1 hs).2.2 (1/2) ⟨0, ⟨1, 1, 1⟩⟩ ⟨0, ⟨1, 1, 1⟩⟩ rfl (by norm_num)⟩

/-- The counterexample input to claim C7 as stated: a rotation key sequence
with two strictly-increasing-time keys storing the non-unit quaternion
`(0,0,0,2)`.  Sampling at the first key's stored time returns the normalized
quaternion `(0,0,0,1)`, not the stored value. -/
theorem C7_keyframe_exact_cex :
    cexRotKeys.Pairwise (fun a b => a.time < b.time) ∧
    cexRotKeys[0]? = some ⟨0, qTwo⟩ ∧
    qTwo.w = 2 ∧
    (cexChannel.sampleRotation 0).w = 1 ∧
    (1 : ℝ) ≠ 2 := by
  refine ⟨?_, rfl, rfl, ?_, by norm_num⟩
  · simp [cexRotKeys, List.pairwise_cons]
  · have hsr : cexChannel.sampleRotation 0 = interpRotation qTwo qTwo 0 := by
      show sampleKeys ⟨0, 0, 0, 1⟩ interpRotation cexRotKeys 0 = _
      have hfk : findKeyframe cexRotKeys 0 = 0 := by
        norm_num [findKeyframe, lowerBound, cexRotKeys]
      simp only [cexRotKeys, sampleKeys] at hfk ⊢
      rw [hfk, if_neg (by norm_num)]
      simp only [List.getD_cons_zero, List.getD_cons_succ]
      rw [if_neg (by norm_num)]
      have hu : clampQ ((0 - 0) / (1 - 0)) 0 1 = 0 := by
        norm_num [clampQ]
      rw [hu]
    rw [hsr]
    have hslerp : quatSlerp qTwo qTwo 0 = qTwo :=
      (quatSlerp_endpoints qTwo qTwo (by norm_num [Quat.dot, qTwo])).1
    have hdot : Quat.dot qTwo qTwo = 4 := by norm_num [Quat.dot, qTwo]
    have hsqrt : Real.sqrt 4 = 2 := by
      rw [show (4 : ℝ) = 2 ^ 2 by norm_num, Real.sqrt_sq (by norm_num : (0 : ℝ) ≤ 2)]
    rw [interpRotation, Rat.cast_zero, hslerp]
    simp only [quatNormalize, hdot, hsqrt, if_neg (by norm_num : (2 : ℝ) ≠ 0)]
    norm_num [Quat.smul, qTwo]

/-! ## Claim C2: `BlendAnimations` accumulation -/

/-- Claim C2 (corrected): `BlendAnimations` resets the output array to
identity and folds the layers over it in list order (after weight
normalization), positive-weight layers only; a layer of weight `≥ 1`
overwrites the accumulator with its sample; but for `weight < 1` the
"linear blend" weights only the upper three rows of each 4x4 matrix —
`XMMatrixScaling` carries a `1` in its last diagonal slot, so the translation
row (row 3) of the result is the plain unweighted sum of the accumulator row
and the sample row, not `acc*(1−w) + sample*w` as claimed of every entry. -/
theorem C2_blend_rows (s : ControllerState) :
    (s.playingAnimations ≠ [] → s.boneTransforms ≠ [] →
      (s.blendAnimations).boneTransforms =
        (s.normalizeWeights).playingAnimations.foldl ControllerState.blendLayer
          (s.boneTransforms.map fun _ => (1 : Mat4))) ∧
    (∀ acc sample : Mat4, ∀ w : ℚ, 1 ≤ w →
      ControllerState.combineBone acc sample w = sample) ∧
    (∀ acc sample : Mat4, ∀ w : ℚ, w < 1 → ∀ i j : Fin 4,
      ControllerState.combineBone acc sample w i j =
        if (i : ℕ) < 3 then (1 - (w : ℝ)) * acc i j + (w : ℝ) * sample i j
        else acc i j + sample i j) := by
  refine ⟨?_, ?_, ?_⟩
  · intro h1 h2
    have hp : ¬ (s.playingAnimations.isEmpty = true) := by
      cases hh : s.playingAnimations with
      | nil => exact absurd hh h1
      | cons a l => simp
    have hb : ¬ (s.boneTransforms.isEmpty = true) := by
      cases hh : s.boneTransforms with
      | nil => exact absurd hh h2
      | cons a l => simp
    unfold ControllerState.blendAnimations
    rw [if_neg (not_or.2 ⟨hp, hb⟩)]
  · intro acc sample w hw
    rw [ControllerState.combineBone, if_pos hw]
  · intro acc sample w hw i j
    rw [ControllerState.combineBone, if_neg (not_le.2 hw)]
    rw [Matrix.add_apply, xmMatrixScaling, xmMatrixScaling,
      Matrix.diagonal_mul, Matrix.diagonal_mul]
    fin_cases i <;>
      simp [Matrix.cons_val_zero, Matrix.cons_val_one, Matrix.head_cons,
        Matrix.cons_val_two, Matrix.cons_val_three, Matrix.vecTail, Matrix.vecHead]

/-- Witness for claim C2: `ctrlCexHalf` (one layer, one bone) together with
concrete weights `1` (override) and `1/2` (blend). -/
theorem C2_blend_rows_witness :
    (ctrlCexHalf.playingAnimations ≠ [] ∧ ctrlCexHalf.boneTransforms ≠ [] ∧
      (1 : ℚ) ≤ 1 ∧ (1/2 : ℚ) < 1) ∧
    ((ctrlCexHalf.blendAnimations).boneTransforms =
      (ctrlCexHalf.normalizeWeights).playingAnimations.foldl ControllerState.blendLayer
        (ctrlCexHalf.boneTransforms.map fun _ => (1 : Mat4))) ∧
    ControllerState.combineBone 1 1 1 = 1 ∧
    (∀ i j : Fin 4, ControllerState.combineBone 1 1 (1/2) i j =
      if (i : ℕ) < 3 then (1 - ((1/2 : ℚ) : ℝ)) * (1 : Mat4) i j + ((1/2 : ℚ) : ℝ) * (1 : Mat4) i j
      else (1 : Mat4) i j + (1 : Mat4) i j) :=
  ⟨⟨List.cons_ne_nil _ _, List.cons_ne_nil _ _, le_refl 1, by norm_num⟩,
    (C2_blend_rows ctrlCexHalf).1 (List.cons_ne_nil _ _) (List.cons_ne_nil _ _),
    (C2_blend_rows ctrlCexHalf).2.1 1 1 1 (le_refl 1),
    (C2_blend_rows ctrlCexHalf).2.2 1 1 (1/2) (by norm_num)⟩

/-- The counterexample input to claim C2 as stated: one bone, a single layer
of weight `1/2` whose sample is the identity, accumulator identity.  The
claimed full-matrix blend gives the identity (entry `(3,3) = 1`); the code
produces `2` in entry `(3,3)`. -/
theorem C2_blend_rows_cex :
    ((ctrlCexHalf.blendAnimations).boneTransforms.getD 0 1) 3 3 = 2 ∧
    (1 - ((1/2 : ℚ) : ℝ)) * (1 : Mat4) 3 3 + ((1/2 : ℚ) : ℝ) * (1 : Mat4) 3 3 = 1 ∧
    (2 : ℝ) ≠ 1 := by
  refine ⟨?_, ?_, by norm_num⟩
  · have hbones : (ctrlCexHalf.blendAnimations).boneTransforms =
        [ControllerState.combineBone 1 1 (1/2)] := by
      unfold ControllerState.blendAnimations
      rw [if_neg (by norm_num [ctrlCexHalf, ctrlBase, ctrl0])]
      norm_num [ctrlCexHalf, ctrlBase, ctrl0, ControllerState.normalizeWeights,
        ControllerState.blendLayer, AnimationClip.sampleAnimation, walkClip]
    rw [hbones]
    show ControllerState.combineBone 1 1 (1/2) 3 3 = 2
    rw [ControllerState.combineBone, if_neg (by norm_num)]
    simp only [xmMatrixScaling, Matrix.mul_one, Matrix.add_apply, Matrix.diagonal_apply_eq]
    norm_num [Matrix.cons_val_three, Matrix.vecTail, Matrix.vecHead]
  · rw [Matrix.one_apply_eq]
    norm_num

/-! ## Claim C1: the per-frame crossfade ramp -/

/-- Claim C1 (corrected): one `UpdateAnimations(deltaTime)` call advances a
blending layer's `blendTime` by `deltaTime` and recomputes the weight as a
linear ramp in `t = clamp(blendTime/blendDuration, 0, 1)`, but with the two
ramp directions the reverse of the claim, keyed on the layer's current weight
rather than the side its weight started on: a layer whose current weight is
`< 0.5` gets weight `1 − t` and a layer whose current weight is `≥ 0.5` gets
weight `t`; once the new `blendTime ≥ blendDuration`, `isBlending` becomes
false and the weight snaps to `1` if the current weight is `> 0.5` and to `0`
otherwise.  (The source has no explicit clamp; `t` equals the clamped ratio
because `0 ≤ blendTime + deltaTime < blendDuration` in the ramp branch.) -/
theorem C1_crossfade_ramp (s : ControllerState) (dt : ℚ) (k : ℕ) (pa : PlayingAnimation)
    (hk : s.playingAnimations[k]? = some pa)
    (hb : pa.isBlending = true) (hbt : 0 ≤ pa.blendTime + dt) :
    ∃ pa', (s.updateAnimations dt).playingAnimations[k]? = some pa' ∧
      pa'.blendTime = pa.blendTime + dt ∧
      (pa.blendDuration ≤ pa.blendTime + dt →
        pa'.isBlending = false ∧ pa'.weight = if 1/2 < pa.weight then 1 else 0) ∧
      (pa.blendTime + dt < pa.blendDuration →
        pa'.isBlending = true ∧
        pa'.weight = if pa.weight < 1/2
          then 1 - clampQ ((pa.blendTime + dt) / pa.blendDuration) 0 1
          else clampQ ((pa.blendTime + dt) / pa.blendDuration) 0 1) := by
  refine ⟨ControllerState.updateLayer dt pa, ?_, ?_, ?_, ?_⟩
  · simp [ControllerState.updateAnimations, List.getElem?_map, hk]
  · simp only [ControllerState.updateLayer, hb, if_true]
    split <;> rfl
  · intro hend
    simp only [ControllerState.updateLayer, hb, if_true, if_pos hend]
    exact ⟨trivial, trivial⟩
  · intro hmid
    have hbd : 0 < pa.blendDuration := lt_of_le_of_lt hbt hmid
    have ht0 : 0 ≤ (pa.blendTime + dt) / pa.blendDuration := div_nonneg hbt hbd.le
    have ht1 : (pa.blendTime + dt) / pa.blendDuration ≤ 1 :=
      le_of_lt ((div_lt_one hbd).2 hmid)
    simp only [ControllerState.updateLayer, hb, if_true, if_neg (not_le.2 hmid)]
    refine ⟨trivial, ?_⟩
    rw [clampQ_eq_self ht0 ht1]

/-- Witness for claim C1: the mid-crossfade layer `paCex` of `ctrlCexBlend`
after a quarter-second update. -/
theorem C1_crossfade_ramp_witness :
    (ctrlCexBlend.playingAnimations[0]? = some paCex ∧ paCex.isBlending = true ∧
      (0 : ℚ) ≤ paCex.blendTime + 1/4) ∧
    ∃ pa', (ctrlCexBlend.updateAnimations (1/4)).playingAnimations[0]? = some pa' ∧
      pa'.blendTime = paCex.blendTime + 1/4 ∧
      (paCex.blendDuration ≤ paCex.blendTime + 1/4 →
        pa'.isBlending = false ∧ pa'.weight = if 1/2 < paCex.weight then 1 else 0) ∧
      (paCex.blendTime + 1/4 < paCex.blendDuration →
        pa'.isBlending = true ∧
        pa'.weight = if paCex.weight < 1/2
          then 1 - clampQ ((paCex.blendTime + 1/4) / paCex.blendDuration) 0 1
          else clampQ ((paCex.blendTime + 1/4) / paCex.blendDuration) 0 1) :=
  ⟨⟨rfl, rfl, by norm_num [paCex]⟩,
    C1_crossfade_ramp ctrlCexBlend (1/4) 0 paCex rfl rfl (by norm_num [paCex])⟩

/-- The counterexample input to claim C1 as stated: `paCex` has weight `1`
(it started on the `≥ 0.5` side, i.e. the claim's "fading out" case) and is
mid-blend with `blendDuration = 1`; after `UpdateAnimations(1/4)` the claim
predicts weight `1 − t = 3/4`, but the code assigns `t = 1/4`. -/
theorem C1_crossfade_ramp_cex :
    ((ctrlCexBlend.updateAnimations (1/4)).playingAnimations.map
        PlayingAnimation.weight) = [1/4] ∧
    (1/4 : ℚ) ≠ 1 - 1/4 := by
  constructor
  · norm_num [ControllerState.updateAnimations, ctrlCexBlend, ctrlBase, ctrl0, paCex,
      ControllerState.updateLayer, AnimationClip.loopTime, walkClip, fmodQ, truncQ]
  · norm_num

/-! ## Claim C4: lazy transform recomputation -/

theorem chain_self {n : ℕ} (F : Forest n) (i : Fin n) : i ∈ F.chain i := by
  rw [Forest.chain]
  exact List.mem_cons_self _ _

theorem chain_parent {n : ℕ} (F : Forest n) (i p : Fin n) (hpar : F.parent i = some p) :
    F.chain i = i :: F.chain p := by
  rw [Forest.chain]
  split
  · rename_i p2 hp2
    rw [hp2] at hpar
    injection hpar with he
    subst he
    rfl
  · rename_i hp2
    rw [hp2] at hpar
    cases hpar

theorem chain_root {n : ℕ} (F : Forest n) (i : Fin n) (hpar : F.parent i = none) :
    F.chain i = [i] := by
  rw [Forest.chain]
  split
  · rename_i p2 hp2
    rw [hp2] at hpar
    cases hpar
  · rfl

theorem chain_le {n : ℕ} (F : Forest n) (i : Fin n) :
    ∀ j ∈ F.chain i, (j : ℕ) ≤ (i : ℕ) := by
  intro j hj
  cases hpar : F.parent i with
  | some p =>
    rw [chain_parent F i p hpar] at hj
    rcases List.mem_cons.1 hj with h | h
    · exact h ▸ le_refl _
    · have h1 := chain_le F p j h
      have h2 := F.parent_lt i p hpar
      omega
  | none =>
    rw [chain_root F i hpar] at hj
    rcases List.mem_cons.1 hj with h | h
    · exact h ▸ le_refl _
    · cases h
termination_by (i : ℕ)
decreasing_by exact F.parent_lt i p hpar

theorem not_self_mem_chain_parent {n : ℕ} (F : Forest n) (i p : Fin n)
    (hpar : F.parent i = some p) : i ∉ F.chain p := by
  intro hin
  have h1 := chain_le F p i hin
  have h2 := F.parent_lt i p hpar
  omega

theorem chain_trans {n : ℕ} (F : Forest n) (i : Fin n) :
    ∀ j ∈ F.chain i, ∀ a ∈ F.chain j, a ∈ F.chain i := by
  intro j hj a ha
  cases hpar : F.parent i with
  | some p =>
    rw [chain_parent F i p hpar] at hj ⊢
    rcases List.mem_cons.1 hj with h | h
    · rw [h] at ha
      rw [chain_parent F i p hpar] at ha
      exact ha
    · exact List.mem_cons.2 (Or.inr (chain_trans F p j h a ha))
  | none =>
    rw [chain_root F i hpar] at hj ⊢
    rcases List.mem_cons.1 hj with h | h
    · rw [h] at ha
      rw [chain_root F i hpar] at ha
      exact ha
    · cases h
termination_by (i : ℕ)
decreasing_by exact F.parent_lt i p hpar

theorem denotWorld_parent {n : ℕ} (F : Forest n) (i p : Fin n) (hpar : F.parent i = some p)
    (s : TState n) : denotWorld F i s = denotLocal (s i) * denotWorld F p s := by
  rw [denotWorld]
  split
  · rename_i p2 hp2
    rw [hp2] at hpar
    injection hpar with he
    subst he
    rfl
  · rename_i hp2
    rw [hp2] at hpar
    cases hpar

theorem denotWorld_root {n : ℕ} (F : Forest n) (i : Fin n) (hpar : F.parent i = none)
    (s : TState n) : denotWorld F i s = denotLocal (s i) := by
  rw [denotWorld]
  split
  · rename_i p2 hp2
    rw [hp2] at hpar
    cases hpar
  · rfl

/-- `denotLocal` depends only on the authoritative fields. -/
theorem denotLocal_congr {nd nd2 : TNode} (h : nd.fields = nd2.fields) :
    denotLocal nd = denotLocal nd2 := by
  have h1 : nd.localPosition = nd2.localPosition := congrArg Prod.fst h
  have h2 : nd.localRotation = nd2.localRotation := congrArg (fun x => x.2.1) h
  have h3 : nd.localScale = nd2.localScale := congrArg (fun x => x.2.2) h
  simp only [denotLocal]
  rw [h1, h2, h3]

/-- `denotWorld` depends only on the fields of the ancestor-or-self chain. -/
theorem denotWorld_congr {n : ℕ} (F : Forest n) (i : Fin n) (s s2 : TState n)
    (h : ∀ j ∈ F.chain i, denotLocal (s2 j) = denotLocal (s j)) :
    denotWorld F i s2 = denotWorld F i s := by
  cases hpar : F.parent i with
  | some p =>
    rw [denotWorld_parent F i p hpar, denotWorld_parent F i p hpar,
      h i (chain_self F i),
      denotWorld_congr F p s s2 fun j hj =>
        h j ((chain_parent F i p hpar) ▸ List.mem_cons.2 (Or.inr hj))]
  | none =>
    rw [denotWorld_root F i hpar, denotWorld_root F i hpar, h i (chain_self F i)]
termination_by (i : ℕ)
decreasing_by exact F.parent_lt i p hpar

/-- Under the invariant, a world-clean node has its whole ancestor chain
world-clean. -/
theorem chain_clean {n : ℕ} (F : Forest n) (s : TState n) (hInv : TInv F s) (i : Fin n)
    (hc : (s i).worldMatrixDirty = false) :
    ∀ j ∈ F.chain i, (s j).worldMatrixDirty = false := by
  intro j hj
  cases hpar : F.parent i with
  | some p =>
    rw [chain_parent F i p hpar] at hj
    rcases List.mem_cons.1 hj with h | h
    · exact h ▸ hc
    · have hpclean : (s p).worldMatrixDirty = false := ((hInv i).1 hc).1 p hpar
      exact chain_clean F s hInv p hpclean j h
  | none =>
    rw [chain_root F i hpar] at hj
    rcases List.mem_cons.1 hj with h | h
    · exact h ▸ hc
    · cases h
termination_by (i : ℕ)
decreasing_by exact F.parent_lt i p hpar

theorem markWMD_eq_of_notin {n : ℕ} (F : Forest n) (i : Fin n) (s0 : TState n) (j : Fin n)
    (h : i ∉ F.chain j) : markWorldMatrixDirty F i s0 j = s0 j := by
  simp only [markWorldMatrixDirty, if_neg h]

theorem markWMD_fields {n : ℕ} (F : Forest n) (i : Fin n) (s0 : TState n) (j : Fin n) :
    (markWorldMatrixDirty F i s0 j).fields = (s0 j).fields := by
  simp only [markWorldMatrixDirty]
  split <;> rfl

theorem markWMD_localDirty {n : ℕ} (F : Forest n) (i : Fin n) (s0 : TState n) (j : Fin n) :
    (markWorldMatrixDirty F i s0 j).localMatrixDirty = (s0 j).localMatrixDirty := by
  simp only [markWorldMatrixDirty]
  split <;> rfl

theorem markWMD_localMatrix {n : ℕ} (F : Forest n) (i : Fin n) (s0 : TState n) (j : Fin n) :
    (markWorldMatrixDirty F i s0 j).localMatrix = (s0 j).localMatrix := by
  simp only [markWorldMatrixDirty]
  split <;> rfl

theorem markWMD_dirty_of_mem {n : ℕ} (F : Forest n) (i : Fin n) (s0 : TState n) (j : Fin n)
    (h : i ∈ F.chain j) : (markWorldMatrixDirty F i s0 j).worldMatrixDirty = true := by
  simp only [markWorldMatrixDirty, if_pos h]

theorem updateLocal_fields (nd : TNode) : nd.updateLocalMatrix.fields = nd.fields := by
  rw [TNode.updateLocalMatrix]
  split <;> rfl

theorem updateLocal_worldMatrix (nd : TNode) :
    nd.updateLocalMatrix.worldMatrix = nd.worldMatrix := by
  rw [TNode.updateLocalMatrix]
  split <;> rfl

theorem updateLocal_worldDirty (nd : TNode) :
    nd.updateLocalMatrix.worldMatrixDirty = nd.worldMatrixDirty := by
  rw [TNode.updateLocalMatrix]
  split <;> rfl

theorem updateLocal_localDirty (nd : TNode) :
    nd.updateLocalMatrix.localMatrixDirty = false := by
  rw [TNode.updateLocalMatrix]
  split
  · rfl
  · rename_i h
    exact eq_false_of_ne_true h

theorem updateLocal_localMatrix (nd : TNode)
    (h : nd.localMatrixDirty = false → nd.localMatrix = denotLocal nd) :
    nd.updateLocalMatrix.localMatrix = denotLocal nd := by
  rw [TNode.updateLocalMatrix]
  split
  · rfl
  · rename_i h2
    exact h (eq_false_of_ne_true h2)

/-- Updating node `i`'s local-matrix cache preserves the invariant. -/
theorem TInv_updateLocal {n : ℕ} (F : Forest n) (s : TState n) (hInv : TInv F s) (i : Fin n) :
    TInv F (Function.update s i (s i).updateLocalMatrix) := by
  set s1 := Function.update s i (s i).updateLocalMatrix with hs1
  have hfields : ∀ a, (s1 a).fields = (s a).fields := by
    intro a
    by_cases ha : a = i
    · subst ha
      rw [hs1, Function.update_same]
      exact updateLocal_fields (s a)
    · rw [hs1, Function.update_noteq ha]
  have hwflag : ∀ a, (s1 a).worldMatrixDirty = (s a).worldMatrixDirty := by
    intro a
    by_cases ha : a = i
    · subst ha
      rw [hs1, Function.update_same]
      exact updateLocal_worldDirty (s a)
    · rw [hs1, Function.update_noteq ha]
  have hwmat : ∀ a, (s1 a).worldMatrix = (s a).worldMatrix := by
    intro a
    by_cases ha : a = i
    · subst ha
      rw [hs1, Function.update_same]
      exact updateLocal_worldMatrix (s a)
    · rw [hs1, Function.update_noteq ha]
  have hdw : ∀ j, denotWorld F j s1 = denotWorld F j s := fun j =>
    denotWorld_congr F j s s1 fun a _ => denotLocal_congr (hfields a)
  intro j
  constructor
  · intro hw
    rw [hwflag j] at hw
    refine ⟨fun q hq => ?_, ?_⟩
    · rw [hwflag q]
      exact ((hInv j).1 hw).1 q hq
    · rw [hwmat j, hdw j]
      exact ((hInv j).1 hw).2
  · intro hl
    by_cases ha : j = i
    · subst ha
      rw [hs1, Function.update_same, updateLocal_localMatrix (s j) (hInv j).2]
      exact denotLocal_congr (updateLocal_fields (s j)).symm
    · rw [hs1, Function.update_noteq ha] at hl ⊢
      rw [(hInv j).2 hl]

/-- Overwriting node `i` with any record whose local-matrix cache is marked
dirty, then propagating world dirtiness through the subtree, preserves the
invariant — the shape shared by all local and world setters. -/
theorem TInv_mutate {n : ℕ} (F : Forest n) (s : TState n) (hInv : TInv F s) (i : Fin n)
    (nd2 : TNode) (hl : nd2.localMatrixDirty = true) :
    TInv F (markWorldMatrixDirty F i (Function.update s i nd2)) := by
  set s1 := Function.update s i nd2 with hs1
  set s2 := markWorldMatrixDirty F i s1 with hs2
  have hs1_ne : ∀ a, a ≠ i → s1 a = s a := fun a ha => Function.update_noteq ha _ _
  have hfields_ne : ∀ a, a ≠ i → (s2 a).fields = (s a).fields := by
    intro a ha
    rw [hs2, markWMD_fields, hs1_ne a ha]
  intro j
  constructor
  · intro hw
    by_cases hin : i ∈ F.chain j
    · exact absurd (hw ▸ markWMD_dirty_of_mem F i s1 j hin) (by simp)
    · have hji : j ≠ i := fun h => hin (h ▸ chain_self F j)
      have hs2j : s2 j = s j := by rw [hs2, markWMD_eq_of_notin F i s1 j hin, hs1_ne j hji]
      rw [hs2j] at hw
      have hnotin_chain : ∀ a ∈ F.chain j, a ≠ i := fun a ha h => hin (h ▸ ha)
      refine ⟨fun q hq => ?_, ?_⟩
      · have hqj : q ∈ F.chain j := by
          rw [chain_parent F j q hq]
          exact List.mem_cons.2 (Or.inr (chain_self F q))
        have hqnotin : i ∉ F.chain q := fun h => hin (chain_trans F j q hqj i h)
        rw [hs2, markWMD_eq_of_notin F i s1 q hqnotin,
          hs1_ne q (hnotin_chain q hqj)]
        exact ((hInv j).1 hw).1 q hq
      · rw [hs2j, ((hInv j).1 hw).2]
        exact (denotWorld_congr F j s s2 fun a ha =>
          denotLocal_congr (hfields_ne a (hnotin_chain a ha))).symm
  · intro hlc
    rw [hs2, markWMD_localDirty] at hlc
    by_cases hji : j = i
    · subst hji
      rw [hs1, Function.update_same] at hlc
      rw [hl] at hlc
      cases hlc
    · rw [hs1_ne j hji] at hlc
      rw [hs2, markWMD_localMatrix, hs1_ne j hji, (hInv j).2 hlc]
      exact denotLocal_congr
        (show (s j).fields = (s2 j).fields from by rw [hs2, markWMD_fields, hs1_ne j hji])

theorem TInv_applyTOp {n : ℕ} (F : Forest n) (s : TState n) (hInv : TInv F s) (op : TOp n) :
    TInv F (applyTOp F s op) := by
  cases op with
  | setPos i v =>
    simp only [applyTOp, setLocalPosition]
    exact TInv_mutate F s hInv i _ rfl
  | setRot i v =>
    simp only [applyTOp, setLocalRotation]
    exact TInv_mutate F s hInv i _ rfl
  | setScale i v =>
    simp only [applyTOp, setLocalScale]
    exact TInv_mutate F s hInv i _ rfl

theorem TInv_runTOps {n : ℕ} (F : Forest n) (ops : List (TOp n)) (s : TState n)
    (hInv : TInv F s) : TInv F (runTOps F ops s) := by
  induction ops generalizing s with
  | nil => exact hInv
  | cons op ops ih =>
    exact ih (applyTOp F s op) (TInv_applyTOp F s hInv op)

theorem updLocal_state_fields {n : ℕ} (s : TState n) (i : Fin n) :
    ∀ a, ((Function.update s i (s i).updateLocalMatrix) a).fields = (s a).fields := by
  intro a
  by_cases ha : a = i
  · subst ha
    rw [Function.update_same]
    exact updateLocal_fields (s a)
  · rw [Function.update_noteq ha]

theorem updLocal_state_wflag {n : ℕ} (s : TState n) (i : Fin n) :
    ∀ a, ((Function.update s i (s i).updateLocalMatrix) a).worldMatrixDirty =
      (s a).worldMatrixDirty := by
  intro a
  by_cases ha : a = i
  · subst ha
    rw [Function.update_same]
    exact updateLocal_worldDirty (s a)
  · rw [Function.update_noteq ha]

theorem updateWorldAux_clean {n : ℕ} (F : Forest n) (i : Fin n) (s : TState n)
    (hc : (s i).worldMatrixDirty = false) : updateWorldAux F i s = (s, []) := by
  rw [updateWorldAux, if_neg (by rw [hc]; exact Bool.false_ne_true)]

theorem updateWorldAux_dirty_root {n : ℕ} (F : Forest n) (i : Fin n) (s : TState n)
    (hd : (s i).worldMatrixDirty = true) (hpar : F.parent i = none) :
    updateWorldAux F i s =
      (Function.update (Function.update s i (s i).updateLocalMatrix) i
        { (Function.update s i (s i).updateLocalMatrix) i with
            worldMatrix := ((Function.update s i (s i).updateLocalMatrix) i).localMatrix,
            worldMatrixDirty := false },
       [i]) := by
  rw [updateWorldAux, if_pos hd]
  split
  · rename_i p2 hp2
    rw [hp2] at hpar
    cases hpar
  · rfl

theorem updateWorldAux_dirty_parent {n : ℕ} (F : Forest n) (i p : Fin n) (s : TState n)
    (hd : (s i).worldMatrixDirty = true) (hpar : F.parent i = some p) :
    updateWorldAux F i s =
      (Function.update
          (updateWorldAux F p (Function.update s i (s i).updateLocalMatrix)).1 i
          { (updateWorldAux F p (Function.update s i (s i).updateLocalMatrix)).1 i with
              worldMatrix :=
                ((updateWorldAux F p (Function.update s i (s i).updateLocalMatrix)).1
                    i).localMatrix *
                ((updateWorldAux F p (Function.update s i (s i).updateLocalMatrix)).1
                    p).worldMatrix,
              worldMatrixDirty := false },
        i :: (updateWorldAux F p (Function.update s i (s i).updateLocalMatrix)).2) := by
  rw [updateWorldAux, if_pos hd]
  split
  · rename_i p2 hp2
    rw [hp2] at hpar
    injection hpar with he
    subst he
    rfl
  · rename_i hp2
    rw [hp2] at hpar
    cases hpar

/-- The behavior of one `UpdateWorldMatrix` read under the invariant: it
preserves the invariant and the authoritative fields, touches only the
ancestor-or-self chain, never dirties a clean cache, leaves the read node
world-clean holding the denoted world matrix, and recomputes exactly the
stale (world-dirty) part of the ancestor-or-self chain. -/
theorem updateWorldAux_spec {n : ℕ} (F : Forest n) (i : Fin n) (s : TState n)
    (hInv : TInv F s) :
    TInv F (updateWorldAux F i s).1 ∧
    (∀ j, j ∉ F.chain i → (updateWorldAux F i s).1 j = s j) ∧
    (∀ j, ((updateWorldAux F i s).1 j).fields = (s j).fields) ∧
    (∀ j, (s j).worldMatrixDirty = false →
      ((updateWorldAux F i s).1 j).worldMatrixDirty = false) ∧
    ((updateWorldAux F i s).1 i).worldMatrixDirty = false ∧
    ((updateWorldAux F i s).1 i).worldMatrix = denotWorld F i s ∧
    (updateWorldAux F i s).2 = (F.chain i).filter (fun j => (s j).worldMatrixDirty) := by
  by_cases hd : (s i).worldMatrixDirty = true
  case neg =>
    have hc : (s i).worldMatrixDirty = false := eq_false_of_ne_true hd
    rw [updateWorldAux_clean F i s hc]
    refine ⟨hInv, fun j _ => rfl, fun j => rfl, fun j h => h, hc, ((hInv i).1 hc).2, ?_⟩
    symm
    rw [List.filter_eq_nil_iff]
    intro j hj
    rw [chain_clean F s hInv i hc j hj]
    exact Bool.false_ne_true
  case pos =>
    cases hpar : F.parent i with
    | none =>
      rw [updateWorldAux_dirty_root F i s hd hpar]
      dsimp only
      set s1 := Function.update s i (s i).updateLocalMatrix with hs1
      have hInv1 : TInv F s1 := TInv_updateLocal F s hInv i
      have hloc : (s1 i).localMatrix = denotLocal (s i) := by
        rw [hs1, Function.update_same]
        exact updateLocal_localMatrix (s i) (hInv i).2
      set nd3 : TNode :=
        { s1 i with worldMatrix := (s1 i).localMatrix, worldMatrixDirty := false } with hnd3
      set s3 := Function.update s1 i nd3 with hs3
      have hs3i : s3 i = nd3 := Function.update_same ..
      have hs3ne : ∀ a, a ≠ i → s3 a = s a := by
        intro a ha
        rw [hs3, Function.update_noteq ha, hs1, Function.update_noteq ha]
      have hfields3 : ∀ a, (s3 a).fields = (s a).fields := by
        intro a
        by_cases ha : a = i
        · subst ha
          rw [hs3i]
          exact (updLocal_state_fields s a a).symm ▸ rfl
        · rw [hs3ne a ha]
      have hdw3 : ∀ j, denotWorld F j s3 = denotWorld F j s := fun j =>
        denotWorld_congr F j s s3 fun a _ => denotLocal_congr (hfields3 a)
      have hldirty3 : (s3 i).localMatrixDirty = false := by
        rw [hs3i, hnd3]
        show (s1 i).localMatrixDirty = false
        rw [hs1, Function.update_same]
        exact updateLocal_localDirty (s i)
      have hworld3 : (s3 i).worldMatrix = denotWorld F i s := by
        rw [hs3i, hnd3]
        show (s1 i).localMatrix = denotWorld F i s
        rw [hloc, denotWorld_root F i hpar]
      refine ⟨?_, ?_, hfields3, ?_, by rw [hs3i], hworld3, ?_⟩
      · intro j
        constructor
        · intro hw
          by_cases hji : j = i
          · subst hji
            refine ⟨fun q hq => ?_, ?_⟩
            · rw [hpar] at hq
              cases hq
            · rw [hworld3, hdw3 j]
          · rw [hs3ne j hji] at hw ⊢
            refine ⟨fun q hq => ?_, ?_⟩
            · by_cases hqi : q = i
              · subst hqi
                rw [hs3i]
              · rw [hs3ne q hqi]
                exact ((hInv j).1 hw).1 q hq
            · rw [((hInv j).1 hw).2, hdw3 j]
        · intro hl
          by_cases hji : j = i
          · subst hji
            have h1 : (s3 j).localMatrix = denotLocal (s j) := by
              rw [hs3i, hnd3]
              exact hloc
            rw [h1]
            exact (denotLocal_congr (hfields3 j)).symm
          · rw [hs3ne j hji] at hl ⊢
            rw [(hInv j).2 hl]
      · intro j hj
        have hji : j ≠ i := by
          intro h
          exact hj (h ▸ chain_self F j)
        exact hs3ne j hji
      · intro j hcl
        by_cases hji : j = i
        · subst hji
          rw [hs3i]
        · rw [hs3ne j hji]
          exact hcl
      · rw [chain_root F i hpar, List.filter_cons, if_pos hd]
        rfl
    | some p =>
      rw [updateWorldAux_dirty_parent F i p s hd hpar]
      dsimp only
      set s1 := Function.update s i (s i).updateLocalMatrix with hs1
      have hInv1 : TInv F s1 := TInv_updateLocal F s hInv i
      obtain ⟨ihInv, ihUntouched, ihFields, ihMono, ihClean, ihWorld, ihLog⟩ :=
        updateWorldAux_spec F p s1 hInv1
      set r1 := (updateWorldAux F p s1).1 with hr1
      have hip : i ∉ F.chain p := not_self_mem_chain_parent F i p hpar
      have hpi : p ≠ i := by
        intro h
        have := F.parent_lt i p hpar
        rw [h] at this
        omega
      have hr1i : r1 i = s1 i := ihUntouched i hip
      have hloc : (r1 i).localMatrix = denotLocal (s i) := by
        rw [hr1i, hs1, Function.update_same]
        exact updateLocal_localMatrix (s i) (hInv i).2
      have hfields1 : ∀ a, (s1 a).fields = (s a).fields := updLocal_state_fields s i
      have hfields_r1 : ∀ a, (r1 a).fields = (s a).fields := fun a =>
        (ihFields a).trans (hfields1 a)
      have hdw1 : ∀ j, denotWorld F j s1 = denotWorld F j s := fun j =>
        denotWorld_congr F j s s1 fun a _ => denotLocal_congr (hfields1 a)
      have hdwr : ∀ j, denotWorld F j r1 = denotWorld F j s := fun j =>
        denotWorld_congr F j s r1 fun a _ => denotLocal_congr (hfields_r1 a)
      set nd3 : TNode :=
        { r1 i with worldMatrix := (r1 i).localMatrix * (r1 p).worldMatrix,
                    worldMatrixDirty := false } with hnd3
      set s3 := Function.update r1 i nd3 with hs3
      have hs3i : s3 i = nd3 := Function.update_same ..
      have hs3ne : ∀ a, a ≠ i → s3 a = r1 a := by
        intro a ha
        rw [hs3, Function.update_noteq ha]
      have hfields3 : ∀ a, (s3 a).fields = (s a).fields := by
        intro a
        by_cases ha : a = i
        · subst ha
          rw [hs3i]
          exact hfields_r1 a
        · rw [hs3ne a ha]
          exact hfields_r1 a
      have hdw3 : ∀ j, denotWorld F j s3 = denotWorld F j s := fun j =>
        denotWorld_congr F j s s3 fun a _ => denotLocal_congr (hfields3 a)
      have hworld3 : (s3 i).worldMatrix = denotWorld F i s := by
        rw [hs3i, hnd3]
        show (r1 i).localMatrix * (r1 p).worldMatrix = denotWorld F i s
        rw [hloc, ihWorld, hdw1 p, denotWorld_parent F i p hpar]
      have hldirty3 : (s3 i).localMatrixDirty = false := by
        rw [hs3i, hnd3]
        show (r1 i).localMatrixDirty = false
        rw [hr1i, hs1, Function.update_same]
        exact updateLocal_localDirty (s i)
      refine ⟨?_, ?_, hfields3, ?_, by rw [hs3i], hworld3, ?_⟩
      · intro j
        constructor
        · intro hw
          by_cases hji : j = i
          · subst hji
            refine ⟨fun q hq => ?_, ?_⟩
            · rw [hpar] at hq
              injection hq with he
              subst he
              rw [hs3ne p hpi]
              exact ihClean
            · rw [hworld3, hdw3 j]
          · rw [hs3ne j hji] at hw ⊢
            refine ⟨fun q hq => ?_, ?_⟩
            · by_cases hqi : q = i
              · subst hqi
                rw [hs3i]
              · rw [hs3ne q hqi]
                exact ((ihInv j).1 hw).1 q hq
            · rw [((ihInv j).1 hw).2]
              have : denotWorld F j r1 = denotWorld F j s3 := by
                rw [hdwr j, hdw3 j]
              exact this
        · intro hl
          by_cases hji : j = i
          · subst hji
            have h1 : (s3 j).localMatrix = denotLocal (s j) := by
              rw [hs3i, hnd3]
              exact hloc
            rw [h1]
            exact (denotLocal_congr (hfields3 j)).symm
          · rw [hs3ne j hji] at hl ⊢
            rw [(ihInv j).2 hl]
      · intro j hj
        rw [chain_parent F i p hpar] at hj
        have hji : j ≠ i := fun h => hj (h ▸ List.mem_cons_self _ _)
        have hjp : j ∉ F.chain p := fun h => hj (List.mem_cons.2 (Or.inr h))
        rw [hs3ne j hji, ihUntouched j hjp, hs1, Function.update_noteq hji]
      · intro j hcl
        have hji : j ≠ i := by
          intro h
          rw [h] at hcl
          rw [hcl] at hd
          cases hd
        rw [hs3ne j hji]
        refine ihMono j ?_
        rw [updLocal_state_wflag s i j]
        exact hcl
      · show i :: (updateWorldAux F p s1).2 = _
        rw [ihLog, chain_parent F i p hpar, List.filter_cons, if_pos hd]
        have : (F.chain p).filter (fun j => (s1 j).worldMatrixDirty) =
            (F.chain p).filter (fun j => (s j).worldMatrixDirty) :=
          List.filter_congr fun a _ => by rw [updLocal_state_wflag s i a]
        rw [this]
termination_by (i : ℕ)
decreasing_by exact F.parent_lt i p hpar

/-- Claim C4 (confirmed): starting from any coherent hierarchy state (the
freshly constructed, all-dirty state included), after any finite sequence of
local mutations (`SetLocalPosition` / `SetLocalRotation` / `SetLocalScale` on
any nodes), `GetWorldMatrix()` on any node returns the denotational world
matrix of the current fields — `localMatrix * parent.worldMatrix` with the
parent's world matrix itself current, or `localMatrix` alone for a root; the
post-read state again satisfies the coherence invariant (no read ever
returns or leaves a stale cache), and the instrumentation log of
`updateWorldAux` shows the read recomputed exactly the world-dirty part of
the ancestor-or-self chain, never more. -/
theorem C4_lazy_world {n : ℕ} (F : Forest n) (s0 : TState n) (h0 : TInv F s0)
    (ops : List (TOp n)) (i : Fin n) :
    getWorldMatrix F i (runTOps F ops s0) = denotWorld F i (runTOps F ops s0) ∧
    (∀ p, F.parent i = some p →
      getWorldMatrix F i (runTOps F ops s0) =
        denotLocal (runTOps F ops s0 i) * denotWorld F p (runTOps F ops s0)) ∧
    (F.parent i = none →
      getWorldMatrix F i (runTOps F ops s0) = denotLocal (runTOps F ops s0 i)) ∧
    TInv F (updateWorldAux F i (runTOps F ops s0)).1 ∧
    (updateWorldAux F i (runTOps F ops s0)).2 =
      (F.chain i).filter fun j => ((runTOps F ops s0) j).worldMatrixDirty := by
  have hs := TInv_runTOps F ops s0 h0
  obtain ⟨hInv2, _, _, _, _, hW, hLog⟩ := updateWorldAux_spec F i (runTOps F ops s0) hs
  refine ⟨?_, ?_, ?_, hInv2, hLog⟩
  · rw [getWorldMatrix]
    exact hW
  · intro p hp
    rw [getWorldMatrix, hW, denotWorld_parent F i p hp]
  · intro hp
    rw [getWorldMatrix, hW, denotWorld_root F i hp]

/-- Witness for claim C4: the two-node hierarchy `forest2` in its freshly
constructed state, one `SetLocalPosition` on the root, then a
`GetWorldMatrix` read of the child. -/
theorem C4_lazy_world_witness :
    TInv forest2 tstate2 ∧
    (getWorldMatrix forest2 1 (runTOps forest2 [TOp.setPos 0 ⟨1, 2, 3⟩] tstate2) =
      denotWorld forest2 1 (runTOps forest2 [TOp.setPos 0 ⟨1, 2, 3⟩] tstate2)) ∧
    TInv forest2 (updateWorldAux forest2 1
      (runTOps forest2 [TOp.setPos 0 ⟨1, 2, 3⟩] tstate2)).1 ∧
    (updateWorldAux forest2 1 (runTOps forest2 [TOp.setPos 0 ⟨1, 2, 3⟩] tstate2)).2 =
      (forest2.chain 1).filter
        (fun j => ((runTOps forest2 [TOp.setPos 0 ⟨1, 2, 3⟩] tstate2) j).worldMatrixDirty) :=
  have h0 : TInv forest2 tstate2 := by
    intro i
    refine ⟨fun h => ?_, fun h => ?_⟩ <;> simp [tstate2, TNode.init] at h
  ⟨h0, (C4_lazy_world forest2 tstate2 h0 [TOp.setPos 0 ⟨1, 2, 3⟩] 1).1,
    (C4_lazy_world forest2 tstate2 h0 [TOp.setPos 0 ⟨1, 2, 3⟩] 1).2.2.2.1,
    (C4_lazy_world forest2 tstate2 h0 [TOp.setPos 0 ⟨1, 2, 3⟩] 1).2.2.2.2⟩

/-! ## Claim C5: world-space setters -/

theorem xmMatrixRotationX_zero : xmMatrixRotationX 0 = 1 := by
  ext i j
  fin_cases i <;> fin_cases j <;>
    simp [xmMatrixRotationX, Real.cos_zero, Real.sin_zero, Matrix.one_apply,
      Matrix.cons_val_zero, Matrix.cons_val_one, Matrix.head_cons,
      Matrix.cons_val_two, Matrix.cons_val_three, Matrix.vecTail, Matrix.vecHead]

theorem xmMatrixRotationY_zero : xmMatrixRotationY 0 = 1 := by
  ext i j
  fin_cases i <;> fin_cases j <;>
    simp [xmMatrixRotationY, Real.cos_zero, Real.sin_zero, Matrix.one_apply,
      Matrix.cons_val_zero, Matrix.cons_val_one, Matrix.head_cons,
      Matrix.cons_val_two, Matrix.cons_val_three, Matrix.vecTail, Matrix.vecHead]

theorem xmMatrixRotationZ_zero : xmMatrixRotationZ 0 = 1 := by
  ext i j
  fin_cases i <;> fin_cases j <;>
    simp [xmMatrixRotationZ, Real.cos_zero, Real.sin_zero, Matrix.one_apply,
      Matrix.cons_val_zero, Matrix.cons_val_one, Matrix.head_cons,
      Matrix.cons_val_two, Matrix.cons_val_three, Matrix.vecTail, Matrix.vecHead]

theorem createRotationMatrix_zero : createRotationMatrix ⟨0, 0, 0⟩ = 1 := by
  have ht : toRadians 0 = 0 := zero_mul _
  rw [createRotationMatrix]
  show xmMatrixRotationRollPitchYaw (toRadians 0) (toRadians 0) (toRadians 0) = 1
  rw [ht, xmMatrixRotationRollPitchYaw, xmMatrixRotationX_zero, xmMatrixRotationY_zero,
    xmMatrixRotationZ_zero, one_mul, one_mul]

theorem atan2_zero_one : atan2 0 1 = 0 := by
  rw [atan2, if_pos one_pos, zero_div, Real.arctan_zero]

theorem matrixToEuler_one : matrixToEuler (1 : Mat4) = ⟨0, 0, 0⟩ := by
  rw [matrixToEuler]
  have h00 : (1 : Mat4) 0 0 = 1 := Matrix.one_apply_eq 0
  have h10 : (1 : Mat4) 1 0 = 0 := Matrix.one_apply_ne (by decide)
  have h20 : (1 : Mat4) 2 0 = 0 := Matrix.one_apply_ne (by decide)
  have h21 : (1 : Mat4) 2 1 = 0 := Matrix.one_apply_ne (by decide)
  have h22 : (1 : Mat4) 2 2 = 1 := Matrix.one_apply_eq 2
  rw [h00, h10, h20, h21, h22]
  have hsy : Real.sqrt (1 * 1 + 0 * 0) = 1 := by
    norm_num
  rw [hsy, if_neg (by norm_num), neg_zero, atan2_zero_one]
  rw [show (toDegrees 0) = 0 from zero_mul _]

/-- Claim C5 is right about the intent and `SetWorldPosition`, but
`SetWorldRotation` is broken in the source: in the with-parent branch both
`worldRot` and the "parent" rotation are built from this node's own current
local rotation via `CreateRotationMatrix()` — the `rotation` argument is never
read and the parent is never consulted — so the node stores
`MatrixToEuler(R⁻¹ * R) = MatrixToEuler(identity) = (0,0,0)` no matter what
was requested.  Evaluated at the failing input: child node `1` of `forest2`
(parent node `0`, whose world rotation is the identity), requested world
rotation `(90, 0, 0)`: the stored local rotation is `(0, 0, 0)`, whose
rotation matrix is the identity, while the claim requires a rotation matrix
equal to the requested 90-degree pitch, which is not the identity. -/
theorem C5_setWorldRotation_bug :
    ((setWorldRotation forest2 1 ⟨90, 0, 0⟩ tstate2) 1).localRotation = ⟨0, 0, 0⟩ ∧
    createRotationMatrix ⟨0, 0, 0⟩ = 1 ∧
    createRotationMatrix ⟨90, 0, 0⟩ ≠ 1 := by
  refine ⟨?_, createRotationMatrix_zero, ?_⟩
  · have hpar : forest2.parent 1 = some 0 := rfl
    have hmem : (1 : Fin 2) ∈ forest2.chain 1 := by
      rw [Forest.chain]
      exact List.mem_cons_self _ _
    have hinit : (tstate2 1).localRotation = ⟨0, 0, 0⟩ := rfl
    rw [setWorldRotation]
    simp only [hpar, hinit]
    rw [markWorldMatrixDirty]
    simp only [if_pos hmem, Function.update_same]
    rw [createRotationMatrix_zero, Matrix.inv_eq_left_inv (by rw [one_mul]), one_mul,
      matrixToEuler_one]
  · intro hcontra
    have h11 := congrFun (congrFun hcontra 1) 1
    have hz : toRadians 0 = 0 := zero_mul _
    rw [createRotationMatrix] at h11
    have hshow : xmMatrixRotationRollPitchYaw (toRadians 90) (toRadians 0) (toRadians 0)
        = xmMatrixRotationX (toRadians 90) := by
      rw [xmMatrixRotationRollPitchYaw, hz, xmMatrixRotationY_zero, xmMatrixRotationZ_zero,
        one_mul, mul_one]
    rw [show (⟨90, 0, 0⟩ : Vec3R).x = 90 from rfl] at h11
    rw [hshow] at h11
    have hrad : toRadians 90 = Real.pi / 2 := by
      rw [toRadians]
      ring
    rw [hrad] at h11
    have hlhs : xmMatrixRotationX (Real.pi / 2) 1 1 = 0 := by
      simp [xmMatrixRotationX, Real.cos_pi_div_two, Matrix.cons_val_one, Matrix.head_cons]
    rw [hlhs, Matrix.one_apply_eq] at h11
    exact absurd h11 (by norm_num)

end DX11B1
